import Mathlib

/-
Verification of the RBAC permission resolution and caching engine
(pkg/services/accesscontrol/acimpl/service.go) against its specification.
The Go service is shallowly embedded: the cache and the list of issued
store queries are threaded explicitly through each function, fallible
code returns Except, and machine details (tracing spans, metrics
counters, timers, logging) are dropped as pure observability effects.
-/

namespace Grafana

/-- A permission is an action and a scope (both strings), mirroring
accesscontrol.Permission. -/
structure Permission where
  action : String
  scope : String
deriving DecidableEq

/-- Errors surfaced by the engine: errors reported by the Store adapter,
integer-parse failures from strconv.ParseInt, and the role-not-found
sentinel accesscontrol.ErrRoleNotFound. -/
inductive Err where
  | storeError (msg : String)
  | parseIntError (s : String)
  | roleNotFound
deriving DecidableEq

/-- Mirrors accesscontrol.RoleDTO restricted to the fields the service
reads: name, display name, description and the permission list. -/
structure RoleDTO where
  name : String
  displayName : String
  description : String
  permissions : List Permission
deriving DecidableEq

/-- Mirrors accesscontrol.RoleRegistration: a role and the names of the
basic roles it is granted to. -/
structure RoleRegistration where
  role : RoleDTO
  grants : List String
deriving DecidableEq

/-- Mirrors accesscontrol.Options: the per-call flag forcing a cache
reload. -/
structure Options where
  reloadCache : Bool
deriving DecidableEq

/-- Mirrors accesscontrol.SearchOptions restricted to the fields the
service reads. -/
structure SearchOptions where
  action : String
  actionPfx : String
  scope : String
  rolePfxs : List String
  namespacedID : String
deriving DecidableEq

/-- Mirrors accesscontrol.GetUserPermissionsQuery: the argument record of
the Store permission queries. -/
structure GetUserPermissionsQuery where
  orgID : Int
  userID : Int
  roles : List String
  teamIDs : List Int
  rolePfxs : List String
deriving DecidableEq

/-- Modelled from the spec: a cache key is a deterministic composite of
the entity kind (basic-role, team, user-direct, or the aggregate
user-search key), the entity identifier and the organization id. The
source key builders (accesscontrol.GetBasicRolePermissionCacheKey,
GetTeamPermissionCacheKey, GetUserDirectPermissionCacheKey,
GetPermissionCacheKey) live outside the shown sources; an inductive type
keeps the spec requirement that equal logical entities produce equal keys
and distinct kinds produce distinct keys. -/
inductive CacheKey where
  | basicRole (role : String) (orgID : Int)
  | team (teamID : Int) (orgID : Int)
  | userDirect (nameSpace : String) (identifier : String) (orgID : Int)
  | aggregate (nameSpace : String) (identifier : String) (orgID : Int)
deriving DecidableEq

/-- The TTL constant cacheTTL = 60 * time.Second, in seconds. -/
def cacheTTL : Nat := 60

/-- The cache layer: an association list from keys to a permission slice
and the TTL the entry was stored with. Newest entries are consulted
first, so prepending realizes overwriting. TTL expiry is a wall-clock
behavior of the external cache layer and is not modelled; the stored TTL
is kept so that claims about the TTL argument of Set are statable. -/
abbrev Cache := List (CacheKey × List Permission × Nat)

/-- Cache entry lookup including stored TTL: newest entry first. -/
def cacheEntry : Cache → CacheKey → Option (List Permission × Nat)
  | [], _ => none
  | e :: rest, k => if e.1 = k then some e.2 else cacheEntry rest k

/-- Cache get: value of the newest entry under the key. -/
def cacheGet (c : Cache) (k : CacheKey) : Option (List Permission) :=
  (cacheEntry c k).map Prod.fst

/-- Cache set: stores a value under a key with a TTL, overwriting any
previous entry for that key. -/
def cacheSet (c : Cache) (k : CacheKey) (v : List Permission) (ttl : Nat) : Cache :=
  (k, v, ttl) :: c

/-- Cache delete: removes every entry under the key. -/
def cacheDelete : Cache → CacheKey → Cache
  | [], _ => []
  | e :: rest, k => if e.1 = k then cacheDelete rest k else e :: cacheDelete rest k

/-- Association-list lookup, used for the Go maps the embedding keeps as
ordered association lists. -/
def alookup {α β : Type} [BEq α] : List (α × β) → α → Option β
  | [], _ => none
  | e :: rest, k => if e.1 == k then some e.2 else alookup rest k

/-- Appends the results of f over a list, mirroring Go loops that append
slice-valued results. -/
def concatMap {α β : Type} (f : α → List β) : List α → List β
  | [] => []
  | x :: xs => f x ++ concatMap f xs

/-- Parses a run of decimal digits, accumulating the value. -/
def parseDigitsAux : List Char → Nat → Option Nat
  | [], acc => some acc
  | c :: rest, acc =>
    if c.isDigit then parseDigitsAux rest (acc * 10 + (c.toNat - 48))
    else none

/-- Mirrors strconv.ParseInt(s, 10, 64) as an optional integer: an
optional sign followed by a nonempty digit run (64-bit range overflow is
not modelled; no claim depends on it). Implemented over the character
list so that concrete inputs evaluate inside the kernel. -/
def parseInt64 (s : String) : Option Int :=
  match s.data with
  | [] => none
  | '-' :: rest =>
    if rest.isEmpty then none
    else (parseDigitsAux rest 0).map (fun n => -(n : Int))
  | '+' :: rest =>
    if rest.isEmpty then none
    else (parseDigitsAux rest 0).map (fun n => (n : Int))
  | cs => (parseDigitsAux cs 0).map (fun n => (n : Int))

/-- Splits a character list at each colon, mirroring strings.Split with a
single-character separator. -/
def splitCharsColon : List Char → List (List Char)
  | [] => [[]]
  | c :: rest =>
    let r := splitCharsColon rest
    if c = ':' then [] :: r
    else
      match r with
      | [] => [[c]]
      | g :: gs => (c :: g) :: gs

/-- Mirrors strings.Split(s, ":"), over the character list so that
concrete inputs evaluate inside the kernel. -/
def splitOnColon (s : String) : List String :=
  (splitCharsColon s.data).map (fun cs => String.mk cs)

/-- Mirrors strings.HasPrefix, over the character lists. -/
def strStartsWith (s pre : String) : Bool :=
  pre.data.isPrefixOf s.data

/-- Mirrors strings.HasSuffix, over the character lists. -/
def strEndsWith (s suf : String) : Bool :=
  suf.data.isSuffixOf s.data

/-- Mirrors strings.Join with a colon separator. -/
def joinColon : List String → String
  | [] => ""
  | [s] => s
  | s :: rest => s ++ ":" ++ joinColon rest

/-- The identity namespace constants authn.NamespaceUser and
authn.NamespaceServiceAccount. -/
def NamespaceUser : String := "user"

/-- The service-account identity namespace constant. -/
def NamespaceServiceAccount : String := "service-account"

/-- Modelled from the spec: identity.UserIdentifier (outside the shown
sources) resolves the numeric id of a namespaced identity, parsing the
identifier for user and service-account kinds and yielding 0 otherwise;
an unparseable required identifier is a validation error. This mirrors
the parse logic the source inlines in getUserDirectPermissions. -/
def UserIdentifier (nameSpace identifier : String) : Except Err Int :=
  if nameSpace = NamespaceUser ∨ nameSpace = NamespaceServiceAccount then
    match parseInt64 identifier with
    | some i => Except.ok i
    | none => Except.error (Err.parseIntError identifier)
  else
    Except.ok 0

/-- The action constant accesscontrol.ActionUsersPermissionsRead gating
who may view the permissions of other users. -/
def ActionUsersPermissionsRead : String := "users.permissions:read"

/-- The constant OSSRolesPrefixes: the allow-listed role-name pre fixes
(managed and external-service roles) every store query is restricted to. -/
def OSSRolesPrefixes : List String := ["managed:", "externalsvc:"]

/-- The constant SharedWithMeFolderPermission: the synthetic always
granted read permission on the shared-with-me virtual folder scope. -/
def SharedWithMeFolderPermission : Permission :=
  { action := "folders:read", scope := "folders:uid:sharedwithme" }

/-- Modelled from the spec: the allowed wildcard forms of a scope filter
(SearchOptions.Wildcards lives outside the shown sources). Scope matching
is textual with suffix-wildcard semantics, so the wildcard forms of a
scope are every proper prefix of its colon-separated segments followed by
a star: the forms for dashboards:uid:abc are *, dashboards:* and
dashboards:uid:*. -/
def scopeWildcards (scope : String) : List String :=
  let parts := (splitOnColon scope).dropLast
  (List.range (parts.length + 1)).map (fun i =>
    let pre := parts.take i
    if pre.isEmpty then "*" else joinColon pre ++ ":*")

/-- The wildcard forms of the scope filter of a search. -/
def SearchOptions.wildcards (o : SearchOptions) : List String :=
  scopeWildcards o.scope

/-- Mirrors PermissionMatchesSearchOptions: a mandatory scope check when a
scope filter is set, then exact action equality when an exact action
filter is set, otherwise an action-pre fix check. -/
def PermissionMatchesSearchOptions (permission : Permission) (searchOptions : SearchOptions) : Bool :=
  if searchOptions.scope != "" &&
      !((searchOptions.wildcards ++ [searchOptions.scope]).contains permission.scope) then
    false
  else if searchOptions.action != "" then
    permission.action == searchOptions.action
  else
    strStartsWith permission.action searchOptions.actionPfx

/-- The Store adapter interface (accesscontrol.Store restricted to the
operations the resolution and search paths call), as pure response
functions: the store is external and deterministic within one resolution.
Batched team responses and the per-user search responses are Go maps,
kept as association lists with unique keys. -/
structure Store where
  getUserPermissions : GetUserPermissionsQuery → Except Err (List Permission)
  getBasicRolesPermissions : GetUserPermissionsQuery → Except Err (List Permission)
  getTeamsPermissions : GetUserPermissionsQuery → Except Err (List (Int × List Permission))
  getUsersBasicRoles : Option (List Int) → Int → Except Err (List (Int × List String))
  searchUsersPermissions : Int → SearchOptions → Except Err (List (Int × List Permission))

/-- One issued Store call, recorded in the call trace of each embedded
function in execution order. -/
inductive StoreCall where
  | userPerms (q : GetUserPermissionsQuery)
  | basicRolesPerms (q : GetUserPermissionsQuery)
  | teamsPerms (q : GetUserPermissionsQuery)
  | usersBasicRoles (userIDs : Option (List Int)) (orgID : Int)
  | searchUsersPerms (orgID : Int) (options : SearchOptions)
deriving DecidableEq

/-- The error component, if any, of the Store response to a recorded
call. The store functions are pure, so replaying a recorded query yields
the response observed during the traced run. -/
def storeErrOf (st : Store) : StoreCall → Option Err
  | StoreCall.userPerms q =>
    match st.getUserPermissions q with
    | Except.ok _ => none
    | Except.error e => some e
  | StoreCall.basicRolesPerms q =>
    match st.getBasicRolesPermissions q with
    | Except.ok _ => none
    | Except.error e => some e
  | StoreCall.teamsPerms q =>
    match st.getTeamsPermissions q with
    | Except.ok _ => none
    | Except.error e => some e
  | StoreCall.usersBasicRoles ids orgID =>
    match st.getUsersBasicRoles ids orgID with
    | Except.ok _ => none
    | Except.error e => some e
  | StoreCall.searchUsersPerms orgID options =>
    match st.searchUsersPermissions orgID options with
    | Except.ok _ => none
    | Except.error e => some e

/-- The principal abstraction (identity.Requester restricted to the
methods the service calls): org id, namespaced identity, the basic roles
held in the org (accesscontrol.GetOrgRoles), team ids, whether a unique
id is resolvable (HasUniqueId), and the already-known permission map of
the principal (GetPermissions), used to gate search visibility. -/
structure Requester where
  orgID : Int
  nameSpace : String
  identifier : String
  orgRoles : List String
  teams : List Int
  hasUniqueId : Bool
  permissions : List (String × List String)

/-- The configuration bit the service reads: cfg.RBACPermissionCache. -/
structure Config where
  rbacPermissionCache : Bool

/-- The feature toggles the service queries. -/
structure Features where
  nestedFolders : Bool
  accessControlOnCall : Bool
  externalServiceAccounts : Bool

/-- The access-control service: configuration, feature toggles, the
in-memory basic-role map, the accumulated registration list and the Store
adapter. The cache is threaded explicitly through each function instead
of sitting in a mutable field. -/
structure Service where
  cfg : Config
  features : Features
  roles : List (String × RoleDTO)
  registrations : List RoleRegistration
  store : Store

/-- The in-memory permissions of a basic role: the loop body pattern
  if basicRole, ok := s.roles[builtin]; ok then append. -/
def ramRolePermissions (s : Service) (role : String) : List Permission :=
  match alookup s.roles role with
  | some basicRole => basicRole.permissions
  | none => []

/-- Mirrors getUserPermissions: the uncached path. Basic-role permissions
from RAM, the synthetic shared-with-me permission when the nested-folders
flag is on, then one combined Store query over org, user id, basic roles
and team ids. The source returns (nil, err) on any failure; Except.error
models exactly that pair. -/
def Service.getUserPermissions (s : Service) (user : Requester) (_options : Options) :
    Except Err (List Permission) × List StoreCall :=
  let permissions := concatMap (ramRolePermissions s) user.orgRoles
  let permissions :=
    if s.features.nestedFolders then permissions ++ [SharedWithMeFolderPermission]
    else permissions
  match UserIdentifier user.nameSpace user.identifier with
  | Except.error e => (Except.error e, [])
  | Except.ok userID =>
    let q : GetUserPermissionsQuery :=
      { orgID := user.orgID, userID := userID, roles := user.orgRoles,
        teamIDs := user.teams, rolePfxs := OSSRolesPrefixes }
    ((match s.store.getUserPermissions q with
      | Except.error e => Except.error e
      | Except.ok dbPermissions => Except.ok (permissions ++ dbPermissions)),
      [StoreCall.userPerms q])

/-- Mirrors getBasicRolePermissions: RAM permissions of one basic role
plus the managed permissions the Store holds against that role. The
source returns the partial slice together with the store error; its only
caller discards the slice when the error is set, so the pair is modelled
as Except. -/
def Service.getBasicRolePermissions (s : Service) (role : String) (orgID : Int) :
    Except Err (List Permission) × List StoreCall :=
  let permissions := ramRolePermissions s role
  let q : GetUserPermissionsQuery :=
    { orgID := orgID, userID := 0, roles := [role], teamIDs := [], rolePfxs := OSSRolesPrefixes }
  ((match s.store.getBasicRolesPermissions q with
    | Except.error e => Except.error e
    | Except.ok dbPermissions => Except.ok (permissions ++ dbPermissions)),
    [StoreCall.basicRolesPerms q])

/-- Mirrors getTeamsPermissions: one batched Store query over the given
team ids. -/
def Service.getTeamsPermissions (s : Service) (teamIDs : List Int) (orgID : Int) :
    Except Err (List (Int × List Permission)) × List StoreCall :=
  let q : GetUserPermissionsQuery :=
    { orgID := orgID, userID := 0, roles := [], teamIDs := teamIDs, rolePfxs := OSSRolesPrefixes }
  (s.store.getTeamsPermissions q, [StoreCall.teamsPerms q])

/-- Mirrors getUserDirectPermissions: permissions directly assigned to
the principal, without basic-role and team permissions; appends the
shared-with-me permission when the nested-folders flag is on. The inlined
namespace check and ParseInt call coincide with UserIdentifier. -/
def Service.getUserDirectPermissions (s : Service) (user : Requester) :
    Except Err (List Permission) × List StoreCall :=
  match UserIdentifier user.nameSpace user.identifier with
  | Except.error e => (Except.error e, [])
  | Except.ok userID =>
    let q : GetUserPermissionsQuery :=
      { orgID := user.orgID, userID := userID, roles := [], teamIDs := [],
        rolePfxs := OSSRolesPrefixes }
    ((match s.store.getUserPermissions q with
      | Except.error e => Except.error e
      | Except.ok permissions =>
        Except.ok (if s.features.nestedFolders then permissions ++ [SharedWithMeFolderPermission]
          else permissions)),
      [StoreCall.userPerms q])

/-- The producer type GetPermissionsFn, paired with the store calls the
producer issues when invoked. -/
def GetPermissionsFn : Type :=
  Unit → Except Err (List Permission) × List StoreCall

/-- Mirrors getCachedPermissions, the generic cache-or-compute helper:
return the cached value unless options.ReloadCache is set or no entry
exists; on miss invoke the producer, store a successful result under the
key with the fixed TTL, and return it. -/
def Service.getCachedPermissions (_s : Service) (cache : Cache) (key : CacheKey)
    (getPermissionsFn : GetPermissionsFn) (options : Options) :
    Except Err (List Permission) × Cache × List StoreCall :=
  match (if options.reloadCache then none else cacheGet cache key) with
  | some permissions => (Except.ok permissions, cache, [])
  | none =>
    match getPermissionsFn () with
    | (Except.error e, calls) => (Except.error e, cache, calls)
    | (Except.ok permissions, calls) =>
      (Except.ok permissions, cacheSet cache key permissions cacheTTL, calls)

/-- Mirrors getCachedBasicRolePermissions: the basic-role sub-query,
addressed by the basic-role cache key. -/
def Service.getCachedBasicRolePermissions (s : Service) (cache : Cache) (role : String)
    (orgID : Int) (options : Options) :
    Except Err (List Permission) × Cache × List StoreCall :=
  s.getCachedPermissions cache (CacheKey.basicRole role orgID)
    (fun _ => s.getBasicRolePermissions role orgID) options

/-- The loop of getCachedBasicRolesPermissions: one cached sub-query per
held basic role, aborting on the first error, concatenating results in
role order. -/
def cachedBasicRolesLoop (s : Service) (orgID : Int) (options : Options) :
    List String → Cache → Except Err (List Permission) × Cache × List StoreCall
  | [], cache => (Except.ok [], cache, [])
  | role :: rest, cache =>
    match s.getCachedBasicRolePermissions cache role orgID options with
    | (Except.error e, c2, t1) => (Except.error e, c2, t1)
    | (Except.ok permissions, c2, t1) =>
      match cachedBasicRolesLoop s orgID options rest c2 with
      | (Except.error e, c3, t2) => (Except.error e, c3, t1 ++ t2)
      | (Except.ok restPermissions, c3, t2) =>
        (Except.ok (permissions ++ restPermissions), c3, t1 ++ t2)

/-- Mirrors getCachedBasicRolesPermissions: iterates the held basic
roles. -/
def Service.getCachedBasicRolesPermissions (s : Service) (cache : Cache) (user : Requester)
    (options : Options) :
    Except Err (List Permission) × Cache × List StoreCall :=
  cachedBasicRolesLoop s user.orgID options user.orgRoles cache

/-- The first loop of getCachedTeamsPermissions: per team id in order, a
cache probe; hits contribute their permissions, misses collect the team
id. -/
def teamCacheScan (cache : Cache) (orgID : Int) : List Int → List Permission × List Int
  | [] => ([], [])
  | teamID :: rest =>
    let r := teamCacheScan cache orgID rest
    match cacheGet cache (CacheKey.team teamID orgID) with
    | some teamPermissions => (teamPermissions ++ r.1, r.2)
    | none => (r.1, teamID :: r.2)

/-- The write-back loop of getCachedTeamsPermissions: each team in the
batched Store response is stored individually under the cache key of that
team. -/
def writeTeams (orgID : Int) : Cache → List (Int × List Permission) → Cache
  | cache, [] => cache
  | cache, (teamID, teamPermissions) :: rest =>
    writeTeams orgID (cacheSet cache (CacheKey.team teamID orgID) teamPermissions cacheTTL) rest

/-- Mirrors getCachedTeamsPermissions: probe the cache per team id
(unless a reload is forced, in which case every team id is a miss), fetch
the missed subset in one batched Store call when it is nonempty, write
each returned team back individually, and concatenate hit and fetched
permissions. -/
def Service.getCachedTeamsPermissions (s : Service) (cache : Cache) (user : Requester)
    (options : Options) :
    Except Err (List Permission) × Cache × List StoreCall :=
  let scan :=
    if options.reloadCache then ([], user.teams)
    else teamCacheScan cache user.orgID user.teams
  if scan.2.isEmpty then
    (Except.ok scan.1, cache, [])
  else
    match s.getTeamsPermissions scan.2 user.orgID with
    | (Except.error e, calls) => (Except.error e, cache, calls)
    | (Except.ok teamsPermissions, calls) =>
      (Except.ok (scan.1 ++ concatMap Prod.snd teamsPermissions),
        writeTeams user.orgID cache teamsPermissions, calls)

/-- Mirrors getCachedUserDirectPermissions: the direct-permission
sub-query, addressed by the user-direct cache key. -/
def Service.getCachedUserDirectPermissions (s : Service) (cache : Cache) (user : Requester)
    (options : Options) :
    Except Err (List Permission) × Cache × List StoreCall :=
  s.getCachedPermissions cache (CacheKey.userDirect user.nameSpace user.identifier user.orgID)
    (fun _ => s.getUserDirectPermissions user) options

/-- Mirrors getCachedUserPermissions: the three independent cache-backed
sub-queries, concatenated basic-roles, teams, then direct. -/
def Service.getCachedUserPermissions (s : Service) (cache : Cache) (user : Requester)
    (options : Options) :
    Except Err (List Permission) × Cache × List StoreCall :=
  match s.getCachedBasicRolesPermissions cache user options with
  | (Except.error e, c1, t1) => (Except.error e, c1, t1)
  | (Except.ok basicRolesPermissions, c1, t1) =>
    match s.getCachedTeamsPermissions c1 user options with
    | (Except.error e, c2, t2) => (Except.error e, c2, t1 ++ t2)
    | (Except.ok teamsPermissions, c2, t2) =>
      match s.getCachedUserDirectPermissions c2 user options with
      | (Except.error e, c3, t3) => (Except.error e, c3, t1 ++ t2 ++ t3)
      | (Except.ok userPermissions, c3, t3) =>
        (Except.ok (basicRolesPermissions ++ teamsPermissions ++ userPermissions),
          c3, t1 ++ t2 ++ t3)

/-- Mirrors GetUserPermissions: the uncached path unless the permission
cache is enabled and the principal has a unique id. -/
def Service.GetUserPermissions (s : Service) (cache : Cache) (user : Requester)
    (options : Options) :
    Except Err (List Permission) × Cache × List StoreCall :=
  if !s.cfg.rbacPermissionCache || !user.hasUniqueId then
    let r := s.getUserPermissions user options
    (r.1, cache, r.2)
  else
    s.getCachedUserPermissions cache user options

/-- Mirrors ClearUserPermissionCache: deletes the aggregate and the
user-direct cache entries of the principal. -/
def Service.ClearUserPermissionCache (user : Requester) (cache : Cache) : Cache :=
  cacheDelete
    (cacheDelete cache (CacheKey.aggregate user.nameSpace user.identifier user.orgID))
    (CacheKey.userDirect user.nameSpace user.identifier user.orgID)

/-- Mirrors GetRoleByName: a name present in the basic-role map is
rejected with ErrRoleNotFound; otherwise the first registration carrying
the name yields the role, and ErrRoleNotFound results when none does. -/
def Service.GetRoleByName (s : Service) (roleName : String) : Except Err RoleDTO :=
  if (alookup s.roles roleName).isSome then
    Except.error Err.roleNotFound
  else
    match s.registrations.find? (fun registration => registration.role.name == roleName) with
    | some registration =>
      Except.ok
        { name := registration.role.name
          permissions := registration.role.permissions
          displayName := registration.role.displayName
          description := registration.role.description }
    | none => Except.error Err.roleNotFound

/-- The third element of a split scope, mirroring the indexing parts[2]
guarded by the length check. -/
def thirdPart (parts : List String) : String :=
  parts.getD 2 ""

/-- The id-collecting loop of the canView closure in
SearchUsersPermissions: scopes are walked in order; a scope ending in a
star makes every user visible (none); otherwise a scope splitting into
exactly three colon-separated parts whose third part parses as an integer
contributes that id, and any other scope is skipped. -/
def collectViewIds : List String → List Int → Option (List Int)
  | [], ids => some ids
  | scope :: rest, ids =>
    if strEndsWith scope "*" then none
    else
      let parts := splitOnColon scope
      if parts.length = 3 then
        match parseInt64 (thirdPart parts) with
        | some id => collectViewIds rest (ids ++ [id])
        | none => collectViewIds rest ids
      else collectViewIds rest ids

/-- The canView visibility gate of SearchUsersPermissions, as the
predicate over user ids the closure returns: no permissions or no
view-user-permissions action makes nobody visible; a wildcard-suffixed
scope makes everybody visible; otherwise exactly the collected numeric
ids are visible. -/
def canView (siuPermissions : List (String × List String)) (userID : Int) : Bool :=
  if siuPermissions.isEmpty then false
  else
    match alookup siuPermissions ActionUsersPermissionsRead with
    | none => false
    | some scopes =>
      match collectViewIds scopes [] with
      | none => true
      | some ids => ids.contains userID

/-- The RAM filter of the bulk search: per basic role, the permissions
matching the search predicate; roles with no match stay absent from the
map, mirroring that the Go map only receives a key when a permission is
appended. -/
def basicPermissionsMap (roles : List (String × RoleDTO)) (options : SearchOptions) :
    List (String × List Permission) :=
  (roles.map (fun rb =>
    (rb.1, rb.2.permissions.filter (fun p => PermissionMatchesSearchOptions p options)))).filter
    (fun e => !e.2.isEmpty)

/-- The per-user merge of the bulk search: basic-role permissions from
the RAM filter in role order, then the stored permissions of the user,
kept only when nonempty and when the requester may view the user. -/
def searchMergeUser (usrPermissions : List (String × List String))
    (basicPermissions : List (String × List Permission))
    (usersPermissions : List (Int × List Permission)) (entry : Int × List String) :
    Option (Int × List Permission) :=
  if !canView usrPermissions entry.1 then none
  else
    let perms := concatMap (fun r => (alookup basicPermissions r).getD []) entry.2
    let perms :=
      match alookup usersPermissions entry.1 with
      | some dbPerms => perms ++ dbPerms
      | none => perms
    if perms.length > 0 then some (entry.1, perms) else none

/-- Mirrors the bulk path of SearchUsersPermissions (no namespaced id in
the options, which reroutes to the single-user cached path): role pre
fixes forced to the OSS allow-list, RAM permissions filtered by the
predicate, basic roles of every org user and matching stored permissions
fetched, then merged per user behind the canView gate. -/
def Service.searchUsersPermissionsBulk (s : Service) (usr : Requester)
    (optionsIn : SearchOptions) :
    Except Err (List (Int × List Permission)) × List StoreCall :=
  let options : SearchOptions :=
    { action := optionsIn.action, actionPfx := optionsIn.actionPfx, scope := optionsIn.scope,
      rolePfxs := OSSRolesPrefixes, namespacedID := optionsIn.namespacedID }
  let basicPermissions := basicPermissionsMap s.roles options
  match s.store.getUsersBasicRoles none usr.orgID with
  | Except.error e => (Except.error e, [StoreCall.usersBasicRoles none usr.orgID])
  | Except.ok usersRoles =>
    match s.store.searchUsersPermissions usr.orgID options with
    | Except.error e =>
      (Except.error e,
        [StoreCall.usersBasicRoles none usr.orgID, StoreCall.searchUsersPerms usr.orgID options])
    | Except.ok usersPermissions =>
      (Except.ok (usersRoles.filterMap
          (searchMergeUser usr.permissions basicPermissions usersPermissions)),
        [StoreCall.usersBasicRoles none usr.orgID, StoreCall.searchUsersPerms usr.orgID options])

/-- A semantic model of the Store for the refinement claim: per org, the
direct permissions of each user, the managed permissions attached to each
basic role, and the permissions of each team. The spec names these three
grant sources; the combined and the decomposed Store queries both read
them. -/
structure StoreModel where
  directPerms : Int → Int → List Permission
  basicRoleManaged : Int → String → List Permission
  teamPerms : Int → Int → List Permission

/-- The Store induced by a semantic model: the combined user query
returns direct, basic-role-managed and team permissions for the queried
ids; the basic-role query returns the managed permissions of the queried
roles; the batched team query returns one map entry per queried team
that has any stored permissions, mirroring that the database response
map holds no key for a team without rows. -/
def StoreModel.toStore (m : StoreModel) : Store where
  getUserPermissions := fun q =>
    Except.ok (m.directPerms q.orgID q.userID
      ++ concatMap (m.basicRoleManaged q.orgID) q.roles
      ++ concatMap (m.teamPerms q.orgID) q.teamIDs)
  getBasicRolesPermissions := fun q =>
    Except.ok (concatMap (m.basicRoleManaged q.orgID) q.roles)
  getTeamsPermissions := fun q =>
    Except.ok (q.teamIDs.filterMap (fun teamID =>
      let ps := m.teamPerms q.orgID teamID
      if ps.isEmpty then none else some (teamID, ps)))
  getUsersBasicRoles := fun _ _ => Except.ok []
  searchUsersPermissions := fun _ _ => Except.ok []

/-- The value a consistent cache entry under a basic-role key must hold:
what the basic-role producer computes from RAM and the model. -/
def expectedBasicRole (s : Service) (m : StoreModel) (role : String) (orgID : Int) :
    List Permission :=
  ramRolePermissions s role ++ m.basicRoleManaged orgID role

/-- The value a consistent cache entry under a user-direct key must hold:
what the direct producer computes from the model (junk unparseable keys
are pinned to the empty slice; the resolution never reads them). -/
def expectedDirect (s : Service) (m : StoreModel) (nameSpace identifier : String)
    (orgID : Int) : List Permission :=
  match UserIdentifier nameSpace identifier with
  | Except.ok userID =>
    let permissions := m.directPerms orgID userID
    if s.features.nestedFolders then permissions ++ [SharedWithMeFolderPermission]
    else permissions
  | Except.error _ => []

/-- A cache consistent with the Store model: every entry under a
basic-role, team or user-direct key holds exactly the value its producer
would compute. The empty cache is vacuously consistent. -/
def ModelConsistent (s : Service) (m : StoreModel) (cache : Cache) : Prop :=
  (∀ role orgID v, cacheGet cache (CacheKey.basicRole role orgID) = some v →
    v = expectedBasicRole s m role orgID) ∧
  (∀ teamID orgID v, cacheGet cache (CacheKey.team teamID orgID) = some v →
    v = m.teamPerms orgID teamID) ∧
  (∀ ns i orgID v, cacheGet cache (CacheKey.userDirect ns i orgID) = some v →
    v = expectedDirect s m ns i orgID)

/-! Shared fixtures used by the concrete witnesses. -/

/-- A sample store model: one direct permission, no managed or team
permissions. -/
def sampleModel : StoreModel where
  directPerms := fun _ _ => [{ action := "datasources:read", scope := "datasources:*" }]
  basicRoleManaged := fun _ _ => []
  teamPerms := fun _ _ => []

/-- A sample basic role. -/
def sampleViewer : RoleDTO where
  name := "basic:viewer"
  displayName := "Viewer"
  description := ""
  permissions := [{ action := "dashboards:read", scope := "dashboards:*" }]

/-- All feature toggles off. -/
def sampleFeatures : Features where
  nestedFolders := false
  accessControlOnCall := false
  externalServiceAccounts := false

/-- A sample service over the sample model, with the permission cache
enabled and all feature toggles off. -/
def sampleService : Service where
  cfg := { rbacPermissionCache := true }
  features := sampleFeatures
  roles := [("Viewer", sampleViewer)]
  registrations := []
  store := sampleModel.toStore

/-- A sample principal: org 1, user 42, basic role Viewer, team 10. -/
def sampleUser : Requester where
  orgID := 1
  nameSpace := "user"
  identifier := "42"
  orgRoles := ["Viewer"]
  teams := [10]
  hasUniqueId := true
  permissions := []

/-- A store whose permission queries always fail. -/
def failingStore : Store where
  getUserPermissions := fun _ => Except.error (Err.storeError "boom")
  getBasicRolesPermissions := fun _ => Except.error (Err.storeError "boom")
  getTeamsPermissions := fun _ => Except.error (Err.storeError "boom")
  getUsersBasicRoles := fun _ _ => Except.error (Err.storeError "boom")
  searchUsersPermissions := fun _ _ => Except.error (Err.storeError "boom")

/-- The sample service wired to the failing store. -/
def failingService : Service where
  cfg := { rbacPermissionCache := true }
  features := sampleFeatures
  roles := [("Viewer", sampleViewer)]
  registrations := []
  store := failingStore

/-! Shared lemmas about the cache primitives. -/

/-- Entry lookup after a set: the key just written reads back the new
value; every other key is unchanged. -/
lemma cacheEntry_set (c : Cache) (k k' : CacheKey) (v : List Permission) (ttl : Nat) :
    cacheEntry (cacheSet c k v ttl) k' = if k = k' then some (v, ttl) else cacheEntry c k' := by
  simp [cacheSet, cacheEntry]

/-- Get after a set. -/
lemma cacheGet_set (c : Cache) (k k' : CacheKey) (v : List Permission) (ttl : Nat) :
    cacheGet (cacheSet c k v ttl) k' = if k = k' then some v else cacheGet c k' := by
  simp [cacheGet, cacheEntry_set]
  split <;> rfl

/-- Entry lookup after a delete: the deleted key is gone, every other
key is unchanged. -/
lemma cacheEntry_delete (c : Cache) (k k' : CacheKey) :
    cacheEntry (cacheDelete c k) k' = if k = k' then none else cacheEntry c k' := by
  induction c with
  | nil => simp [cacheDelete, cacheEntry]
  | cons e rest ih =>
    by_cases he : e.1 = k <;> by_cases hk : k = k' <;> by_cases hek : e.1 = k' <;>
      simp_all [cacheDelete, cacheEntry]

/-- Get after a delete. -/
lemma cacheGet_delete (c : Cache) (k k' : CacheKey) :
    cacheGet (cacheDelete c k) k' = if k = k' then none else cacheGet c k' := by
  simp [cacheGet, cacheEntry_delete]
  split <;> rfl

/-- C9: a principal without a resolvable unique id always takes the
uncached path, even when the RBAC permission cache is enabled: the result
and issued store calls are exactly those of the uncached computation
(which never consults the cache), and the cache is returned unchanged, so
no entry is read or written. -/
theorem C9_no_unique_id_bypasses_cache (s : Service) (cache : Cache) (user : Requester)
    (options : Options) (h : user.hasUniqueId = false) :
    s.GetUserPermissions cache user options =
      ((s.getUserPermissions user options).1, cache, (s.getUserPermissions user options).2) := by
  simp [Service.GetUserPermissions, h]

/-- C9 witness: a concrete principal without a unique id resolves
uncached and leaves a concrete cache untouched. -/
theorem C9_no_unique_id_bypasses_cache_witness :
    let anon : Requester :=
      { orgID := 1, nameSpace := "anonymous", identifier := "", orgRoles := ["Viewer"],
        teams := [], hasUniqueId := false, permissions := [] }
    sampleService.GetUserPermissions [] anon { reloadCache := false } =
      ((sampleService.getUserPermissions anon { reloadCache := false }).1, [],
        (sampleService.getUserPermissions anon { reloadCache := false }).2) :=
  C9_no_unique_id_bypasses_cache sampleService [] _ { reloadCache := false } rfl

/-- C6: the generic cache-or-compute helper returns the cached value when
no reload is forced and an entry exists; otherwise it invokes the
producer once, and on success stores the produced permissions under the
key with the fixed 60-second TTL (overwriting any previous entry) and
returns them, while on producer error it returns the error and stores
nothing. -/
theorem C6_cache_or_compute (s : Service) (cache : Cache) (key : CacheKey)
    (fn : GetPermissionsFn) (options : Options) :
    (options.reloadCache = false → ∀ v, cacheGet cache key = some v →
      s.getCachedPermissions cache key fn options = (Except.ok v, cache, [])) ∧
    (options.reloadCache = true ∨ cacheGet cache key = none →
      (∀ ps calls, fn () = (Except.ok ps, calls) →
        s.getCachedPermissions cache key fn options =
          (Except.ok ps, cacheSet cache key ps cacheTTL, calls) ∧
        cacheEntry (cacheSet cache key ps cacheTTL) key = some (ps, cacheTTL) ∧
        cacheTTL = 60) ∧
      (∀ e calls, fn () = (Except.error e, calls) →
        s.getCachedPermissions cache key fn options = (Except.error e, cache, calls))) := by
  constructor
  · intro hr v hv
    simp [Service.getCachedPermissions, hr, hv]
  · intro hmiss
    have hnone : (if options.reloadCache then none else cacheGet cache key) = none := by
      rcases hmiss with h | h <;> simp [h]
    constructor
    · intro ps calls hfn
      refine ⟨?_, ?_, rfl⟩
      · simp [Service.getCachedPermissions, hnone, hfn]
      · simp [cacheEntry_set]
    · intro e calls hfn
      simp [Service.getCachedPermissions, hnone, hfn]

/-- C6 witness: on a concrete empty cache the producer runs and its
result lands under the key with the 60-second TTL. -/
theorem C6_cache_or_compute_witness :
    sampleService.getCachedPermissions [] (CacheKey.basicRole "Viewer" 1)
        (fun _ => (Except.ok [SharedWithMeFolderPermission], [])) { reloadCache := false } =
      (Except.ok [SharedWithMeFolderPermission],
        cacheSet [] (CacheKey.basicRole "Viewer" 1) [SharedWithMeFolderPermission] cacheTTL,
        []) ∧
    cacheEntry
        (cacheSet [] (CacheKey.basicRole "Viewer" 1) [SharedWithMeFolderPermission] cacheTTL)
        (CacheKey.basicRole "Viewer" 1) = some ([SharedWithMeFolderPermission], 60) :=
  have h := (C6_cache_or_compute sampleService [] (CacheKey.basicRole "Viewer" 1)
    (fun _ => (Except.ok [SharedWithMeFolderPermission], [])) { reloadCache := false }).2
    (Or.inr rfl)
  have h2 := (h.1 [SharedWithMeFolderPermission] [] rfl)
  ⟨h2.1, by rw [h2.2.1, h2.2.2]⟩

/-- C7: role lookup by name. A name present in the basic-role map fails
with the not-found error even when a registration shares the name; a name
absent from the basic-role map succeeds exactly when some accumulated
registration carries it, and fails with the not-found error otherwise. -/
theorem C7_get_role_by_name (s : Service) (roleName : String) :
    ((alookup s.roles roleName).isSome = true →
      s.GetRoleByName roleName = Except.error Err.roleNotFound) ∧
    (alookup s.roles roleName = none →
      ((∃ reg ∈ s.registrations, reg.role.name = roleName) →
        ∃ role, s.GetRoleByName roleName = Except.ok role ∧ role.name = roleName) ∧
      ((∀ reg ∈ s.registrations, reg.role.name ≠ roleName) →
        s.GetRoleByName roleName = Except.error Err.roleNotFound)) := by
  constructor
  · intro hbasic
    simp [Service.GetRoleByName, hbasic]
  · intro hbasic
    constructor
    · intro hex
      have hsome : (s.registrations.find? (fun r => r.role.name == roleName)).isSome = true := by
        rw [List.find?_isSome]
        rcases hex with ⟨reg, hmem, hname⟩
        exact ⟨reg, hmem, by simp [hname]⟩
      rcases Option.isSome_iff_exists.mp hsome with ⟨reg, hfind⟩
      have hname : reg.role.name = roleName := by
        have := List.find?_some hfind
        simpa using this
      refine ⟨_, ?_, hname⟩
      simp [Service.GetRoleByName, hbasic, hfind]
    · intro hall
      have hnone : s.registrations.find? (fun r => r.role.name == roleName) = none := by
        rw [List.find?_eq_none]
        intro reg hmem
        simp [hall reg hmem]
      simp [Service.GetRoleByName, hbasic, hnone]

/-- A registration colliding with the basic-role name Viewer. -/
def collidingReg : RoleRegistration where
  role := { name := "Viewer", displayName := "", description := "", permissions := [] }
  grants := []

/-- A registered custom role. -/
def customReg : RoleRegistration where
  role :=
    { name := "custom:role"
      displayName := "Custom"
      description := ""
      permissions := [SharedWithMeFolderPermission] }
  grants := ["Viewer"]

/-- A service with a basic role named Viewer and two registrations, one
of which collides with the basic-role name. -/
def regService : Service where
  cfg := { rbacPermissionCache := true }
  features := sampleFeatures
  roles := [("Viewer", sampleViewer)]
  registrations := [collidingReg, customReg]
  store := sampleModel.toStore

/-- C7 witness: on the concrete service, the basic-role name fails with
not-found despite the colliding registration, the registered custom role
is returned, and an unknown name fails with not-found. -/
theorem C7_get_role_by_name_witness :
    regService.GetRoleByName "Viewer" = Except.error Err.roleNotFound ∧
    (∃ role, regService.GetRoleByName "custom:role" = Except.ok role ∧
      role.name = "custom:role") ∧
    regService.GetRoleByName "missing:role" = Except.error Err.roleNotFound :=
  ⟨(C7_get_role_by_name regService "Viewer").1 rfl,
   ((C7_get_role_by_name regService "custom:role").2 rfl).1
     ⟨customReg, by simp [regService], rfl⟩,
   ((C7_get_role_by_name regService "missing:role").2 rfl).2 (by decide)⟩

/-- C4: the search predicate matches a permission exactly when the scope
filter, if set, is met by the permission scope equalling the filter or
one of its allowed wildcard forms (a mandatory check independent of the
action check), and the action check holds: exact equality when an exact
action filter is set (short-circuiting prefix matching), otherwise the
permission action starting with the supplied action prefix. Concretely,
filter scope dashboards:uid:abc matches a permission scoped dashboards:*,
exact action filter dashboards:read rejects action dashboards:write, and
action prefix dashboards: matches action dashboards:read. -/
theorem C4_permission_matches_search_options (p : Permission) (o : SearchOptions) :
    (PermissionMatchesSearchOptions p o = true ↔
      ((o.scope = "" ∨ p.scope ∈ o.wildcards ++ [o.scope]) ∧
       ((o.action ≠ "" ∧ p.action = o.action) ∨
        (o.action = "" ∧ strStartsWith p.action o.actionPfx = true)))) ∧
    PermissionMatchesSearchOptions
      { action := "dashboards:read", scope := "dashboards:*" }
      { action := "", actionPfx := "", scope := "dashboards:uid:abc", rolePfxs := [],
        namespacedID := "" } = true ∧
    PermissionMatchesSearchOptions
      { action := "dashboards:write", scope := "" }
      { action := "dashboards:read", actionPfx := "", scope := "", rolePfxs := [],
        namespacedID := "" } = false ∧
    PermissionMatchesSearchOptions
      { action := "dashboards:read", scope := "" }
      { action := "", actionPfx := "dashboards:", scope := "", rolePfxs := [],
        namespacedID := "" } = true := by
  refine ⟨?_, by decide, by decide, by decide⟩
  by_cases hs : o.scope = "" <;> by_cases ha : o.action = "" <;>
    by_cases hm : p.scope ∈ o.wildcards ++ [o.scope] <;>
    simp [PermissionMatchesSearchOptions, List.contains, List.elem_iff, hs, ha, hm]

/-- The miss list of the team cache scan is exactly the team ids without
a cache entry, in order. -/
lemma teamCacheScan_miss (cache : Cache) (orgID : Int) (teams : List Int) :
    (teamCacheScan cache orgID teams).2 =
      teams.filter (fun t => (cacheGet cache (CacheKey.team t orgID)).isNone) := by
  induction teams with
  | nil => simp [teamCacheScan]
  | cons t rest ih =>
    cases hget : cacheGet cache (CacheKey.team t orgID) <;>
      simp [teamCacheScan, hget, List.filter_cons, ih]

/-- Cache entries under keys no written team matches are untouched by the
write-back loop. -/
lemma writeTeams_frame (orgID : Int) (cache : Cache) (M : List (Int × List Permission))
    (k : CacheKey) (h : ∀ e ∈ M, CacheKey.team e.1 orgID ≠ k) :
    cacheEntry (writeTeams orgID cache M) k = cacheEntry cache k := by
  induction M generalizing cache with
  | nil => simp [writeTeams]
  | cons e rest ih =>
    have hne : CacheKey.team e.1 orgID ≠ k := h e (by simp)
    calc cacheEntry (writeTeams orgID (cacheSet cache (CacheKey.team e.1 orgID) e.2 cacheTTL) rest) k
        = cacheEntry (cacheSet cache (CacheKey.team e.1 orgID) e.2 cacheTTL) k :=
          ih _ (fun e2 hm => h e2 (by simp [hm]))
      _ = cacheEntry cache k := by rw [cacheEntry_set, if_neg hne]

/-- After the write-back loop, every team of the batched response reads
back its own permissions, provided the response map has unique keys. -/
lemma writeTeams_get (orgID : Int) (cache : Cache) (M : List (Int × List Permission))
    (hnodup : (M.map Prod.fst).Nodup) :
    ∀ t ps, (t, ps) ∈ M →
      cacheGet (writeTeams orgID cache M) (CacheKey.team t orgID) = some ps := by
  induction M generalizing cache with
  | nil => simp
  | cons e rest ih =>
    intro t ps hmem
    have hd := List.nodup_cons.mp (by rw [List.map_cons] at hnodup; exact hnodup)
    rcases List.mem_cons.mp hmem with heq | htail
    · have he1 : e.1 = t := by rw [← heq]
      have he2 : e.2 = ps := by rw [← heq]
      have hnotin : ∀ e2 ∈ rest, CacheKey.team e2.1 orgID ≠ CacheKey.team t orgID := by
        intro e2 hm2 hk
        have h21 : e2.1 = t := by simpa using hk
        exact hd.1 (by rw [he1, ← h21]; exact List.mem_map_of_mem Prod.fst hm2)
      have hframe := writeTeams_frame orgID
        (cacheSet cache (CacheKey.team e.1 orgID) e.2 cacheTTL) rest
        (CacheKey.team t orgID) hnotin
      simp only [writeTeams, cacheGet]
      rw [hframe, cacheEntry_set, if_pos (by rw [he1])]
      simp [he2]
    · simp only [writeTeams]
      exact ih _ hd.2 t ps htail

/-- C5: with no forced reload, the cached team sub-query collects exactly
the team ids missing from the cache; when none misses, no store call is
issued and the cache is unchanged; when some miss, one batched store call
covering exactly the miss subset is issued and each returned team is
written back individually under the key of that team. -/
theorem C5_team_batching (s : Service) (cache : Cache) (user : Requester) (options : Options)
    (hreload : options.reloadCache = false) :
    (teamCacheScan cache user.orgID user.teams).2 =
      user.teams.filter (fun t => (cacheGet cache (CacheKey.team t user.orgID)).isNone) ∧
    ((teamCacheScan cache user.orgID user.teams).2 = [] →
      s.getCachedTeamsPermissions cache user options =
        (Except.ok (teamCacheScan cache user.orgID user.teams).1, cache, [])) ∧
    (∀ M, (teamCacheScan cache user.orgID user.teams).2 ≠ [] →
      s.store.getTeamsPermissions
        { orgID := user.orgID, userID := 0, roles := [],
          teamIDs := (teamCacheScan cache user.orgID user.teams).2,
          rolePfxs := OSSRolesPrefixes } = Except.ok M →
      (M.map Prod.fst).Nodup →
      s.getCachedTeamsPermissions cache user options =
        (Except.ok ((teamCacheScan cache user.orgID user.teams).1 ++ concatMap Prod.snd M),
          writeTeams user.orgID cache M,
          [StoreCall.teamsPerms
            { orgID := user.orgID, userID := 0, roles := [],
              teamIDs := (teamCacheScan cache user.orgID user.teams).2,
              rolePfxs := OSSRolesPrefixes }]) ∧
      (∀ t ps, (t, ps) ∈ M →
        cacheGet (writeTeams user.orgID cache M) (CacheKey.team t user.orgID) = some ps)) := by
  refine ⟨teamCacheScan_miss cache user.orgID user.teams, ?_, ?_⟩
  · intro hempty
    simp [Service.getCachedTeamsPermissions, hreload, hempty]
  · intro M hne hstore hnodup
    constructor
    · simp [Service.getCachedTeamsPermissions, hreload, List.isEmpty_iff, hne,
        Service.getTeamsPermissions, hstore]
    · exact writeTeams_get user.orgID cache M hnodup

/-- A cached team permission used in concrete team-cache scenarios. -/
def hitPerm : Permission where
  action := "teams:read"
  scope := "teams:uid:ten"

/-- A store-fetched team permission used in concrete team-cache
scenarios. -/
def fetchedPerm : Permission where
  action := "teams:read"
  scope := "teams:uid:twenty"

/-- A store model where only team 20 of org 1 has stored permissions. -/
def teamModel : StoreModel where
  directPerms := fun _ _ => []
  basicRoleManaged := fun _ _ => []
  teamPerms := fun org t => if org = 1 ∧ t = 20 then [fetchedPerm] else []

/-- A service over the team-only store model. -/
def teamService : Service where
  cfg := { rbacPermissionCache := true }
  features := sampleFeatures
  roles := []
  registrations := []
  store := teamModel.toStore

/-- A principal of org 1 in teams 10 and 20. -/
def teamUser : Requester where
  orgID := 1
  nameSpace := "user"
  identifier := "7"
  orgRoles := []
  teams := [10, 20]
  hasUniqueId := true
  permissions := []

/-- A cache holding an entry for team 10 of org 1 only. -/
def warmTeamCache : Cache := [(CacheKey.team 10 1, [hitPerm], 60)]

/-- C5 witness: with team 10 cached and team 20 cold, the miss subset is
exactly team 20, the store is asked once for exactly that subset, and the
response is written back under the key of team 20. -/
theorem C5_team_batching_witness :
    (teamCacheScan warmTeamCache 1 [10, 20]).2 = [20] ∧
    teamService.getCachedTeamsPermissions warmTeamCache teamUser { reloadCache := false } =
      (Except.ok ((teamCacheScan warmTeamCache 1 [10, 20]).1 ++
          concatMap Prod.snd [(20, [fetchedPerm])]),
        writeTeams 1 warmTeamCache [(20, [fetchedPerm])],
        [StoreCall.teamsPerms
          { orgID := 1, userID := 0, roles := [], teamIDs := [20],
            rolePfxs := OSSRolesPrefixes }]) ∧
    cacheGet (writeTeams 1 warmTeamCache [(20, [fetchedPerm])]) (CacheKey.team 20 1) =
      some [fetchedPerm] :=
  have h := C5_team_batching teamService warmTeamCache teamUser { reloadCache := false } rfl
  have h2 := h.2.2 [(20, [fetchedPerm])] (by decide) rfl (by decide)
  ⟨rfl, h2.1, h2.2 20 [fetchedPerm] (by decide)⟩

/-- C10: a team id that missed the cache but is absent from the batched
store response receives no cache entry during write-back, so the cached
team sub-query of any subsequent resolution for a principal of the same
org holding that team misses again for that team id and issues another
batched store call containing it. -/
theorem C10_unreturned_team_never_cached (s : Service) (cache : Cache) (user : Requester)
    (options : Options) (t : Int) (M : List (Int × List Permission))
    (hreload : options.reloadCache = false)
    (hmiss : t ∈ (teamCacheScan cache user.orgID user.teams).2)
    (hstore : s.store.getTeamsPermissions
      { orgID := user.orgID, userID := 0, roles := [],
        teamIDs := (teamCacheScan cache user.orgID user.teams).2,
        rolePfxs := OSSRolesPrefixes } = Except.ok M)
    (hnot : ∀ ps, (t, ps) ∉ M) :
    cacheGet ((s.getCachedTeamsPermissions cache user options).2.1)
      (CacheKey.team t user.orgID) = none ∧
    (∀ user2 : Requester, user2.orgID = user.orgID → t ∈ user2.teams →
      t ∈ (teamCacheScan ((s.getCachedTeamsPermissions cache user options).2.1)
        user.orgID user2.teams).2 ∧
      (s.getCachedTeamsPermissions ((s.getCachedTeamsPermissions cache user options).2.1)
        user2 options).2.2 =
        [StoreCall.teamsPerms
          { orgID := user.orgID, userID := 0, roles := [],
            teamIDs := (teamCacheScan ((s.getCachedTeamsPermissions cache user options).2.1)
              user.orgID user2.teams).2,
            rolePfxs := OSSRolesPrefixes }]) := by
  have hne : (teamCacheScan cache user.orgID user.teams).2 ≠ [] := List.ne_nil_of_mem hmiss
  have hc' : (s.getCachedTeamsPermissions cache user options).2.1 =
      writeTeams user.orgID cache M := by
    simp [Service.getCachedTeamsPermissions, hreload, List.isEmpty_iff, hne,
      Service.getTeamsPermissions, hstore]
  have hcold : cacheGet cache (CacheKey.team t user.orgID) = none := by
    have := (List.mem_filter.mp (by rw [teamCacheScan_miss] at hmiss; exact hmiss)).2
    exact Option.isNone_iff_eq_none.mp this
  have hframe : cacheEntry (writeTeams user.orgID cache M) (CacheKey.team t user.orgID) =
      cacheEntry cache (CacheKey.team t user.orgID) := by
    refine writeTeams_frame user.orgID cache M _ ?_
    intro e hmem hk
    have he1 : e.1 = t := by simpa using hk
    exact hnot e.2 (by rw [← he1]; exact hmem)
  have hnone : cacheGet ((s.getCachedTeamsPermissions cache user options).2.1)
      (CacheKey.team t user.orgID) = none := by
    rw [hc']
    rw [cacheGet] at hcold ⊢
    rw [hframe]
    exact hcold
  refine ⟨hnone, ?_⟩
  intro user2 horg hteam
  have hmiss2 : t ∈ (teamCacheScan ((s.getCachedTeamsPermissions cache user options).2.1)
      user.orgID user2.teams).2 := by
    rw [teamCacheScan_miss]
    exact List.mem_filter.mpr ⟨hteam, by rw [hnone]; rfl⟩
  refine ⟨hmiss2, ?_⟩
  have hne2 : (teamCacheScan ((s.getCachedTeamsPermissions cache user options).2.1)
      user.orgID user2.teams).2 ≠ [] := List.ne_nil_of_mem hmiss2
  rw [Service.getCachedTeamsPermissions]
  rw [horg]
  simp only [hreload, Bool.false_eq_true, if_false, List.isEmpty_iff]
  rw [if_neg hne2]
  rcases hresp : s.store.getTeamsPermissions
      { orgID := user.orgID, userID := 0, roles := [],
        teamIDs := (teamCacheScan ((s.getCachedTeamsPermissions cache user options).2.1)
          user.orgID user2.teams).2,
        rolePfxs := OSSRolesPrefixes } with e | M2 <;>
    simp [Service.getTeamsPermissions, hresp]

/-- A principal of org 1 in teams 30 and 20; team 30 has no stored
permissions in the team-only store model. -/
def team30User : Requester where
  orgID := 1
  nameSpace := "user"
  identifier := "8"
  orgRoles := []
  teams := [30, 20]
  hasUniqueId := true
  permissions := []

/-- C10 witness: team 30 misses, the store response only mentions team
20, so team 30 stays uncached and a repeated resolution misses it
again. -/
theorem C10_unreturned_team_never_cached_witness :
    cacheGet ((teamService.getCachedTeamsPermissions [] team30User
        { reloadCache := false }).2.1) (CacheKey.team 30 1) = none ∧
    30 ∈ (teamCacheScan ((teamService.getCachedTeamsPermissions [] team30User
        { reloadCache := false }).2.1) 1 team30User.teams).2 :=
  have h := C10_unreturned_team_never_cached teamService [] team30User
    { reloadCache := false } 30 [(20, [fetchedPerm])] rfl (by decide) rfl
    (fun ps hp => by simp at hp)
  ⟨h.1, (h.2 team30User rfl (by decide)).1⟩

/-- With no forced reload and every held role warm in the cache, the
basic-role loop answers from the cache: no store call, cache unchanged. -/
lemma cachedBasicRolesLoop_warm (s : Service) (orgID : Int) (options : Options)
    (hreload : options.reloadCache = false) (roles : List String) (cache : Cache)
    (hwarm : ∀ role ∈ roles, (cacheGet cache (CacheKey.basicRole role orgID)).isSome = true) :
    ∃ ps, cachedBasicRolesLoop s orgID options roles cache = (Except.ok ps, cache, []) := by
  induction roles with
  | nil => exact ⟨[], rfl⟩
  | cons r rest ih =>
    have hr := hwarm r (by simp)
    rcases Option.isSome_iff_exists.mp hr with ⟨v, hv⟩
    have hhit : s.getCachedBasicRolePermissions cache r orgID options =
        (Except.ok v, cache, []) := by
      simp [Service.getCachedBasicRolePermissions, Service.getCachedPermissions, hreload, hv]
    rcases ih (fun role hm => hwarm role (by simp [hm])) with ⟨ps, hps⟩
    exact ⟨v ++ ps, by simp [cachedBasicRolesLoop, hhit, hps]⟩

/-- C8: clearing the permission cache of a principal deletes exactly the
aggregate and the user-direct entries of that principal and no other
entry; a subsequent cached resolution whose basic-role and team entries
are still warm issues exactly one store call, the direct-permission
query, and re-populates the direct entry. -/
theorem C8_clear_user_permission_cache (s : Service) (cache : Cache) (user : Requester)
    (options : Options) (uid : Int) (dps : List Permission)
    (hreload : options.reloadCache = false)
    (hwarmBasic : ∀ role ∈ user.orgRoles,
      (cacheGet cache (CacheKey.basicRole role user.orgID)).isSome = true)
    (hwarmTeam : ∀ t ∈ user.teams,
      (cacheGet cache (CacheKey.team t user.orgID)).isSome = true)
    (hid : UserIdentifier user.nameSpace user.identifier = Except.ok uid)
    (hstore : s.store.getUserPermissions
      { orgID := user.orgID, userID := uid, roles := [], teamIDs := [],
        rolePfxs := OSSRolesPrefixes } = Except.ok dps) :
    cacheGet (Service.ClearUserPermissionCache user cache)
      (CacheKey.aggregate user.nameSpace user.identifier user.orgID) = none ∧
    cacheGet (Service.ClearUserPermissionCache user cache)
      (CacheKey.userDirect user.nameSpace user.identifier user.orgID) = none ∧
    (∀ k, k ≠ CacheKey.aggregate user.nameSpace user.identifier user.orgID →
      k ≠ CacheKey.userDirect user.nameSpace user.identifier user.orgID →
      cacheEntry (Service.ClearUserPermissionCache user cache) k = cacheEntry cache k) ∧
    (s.getCachedUserPermissions (Service.ClearUserPermissionCache user cache)
      user options).2.2 =
      [StoreCall.userPerms
        { orgID := user.orgID, userID := uid, roles := [], teamIDs := [],
          rolePfxs := OSSRolesPrefixes }] ∧
    cacheGet ((s.getCachedUserPermissions (Service.ClearUserPermissionCache user cache)
        user options).2.1)
      (CacheKey.userDirect user.nameSpace user.identifier user.orgID) =
      some (if s.features.nestedFolders then dps ++ [SharedWithMeFolderPermission] else dps) := by
  have hagg : cacheGet (Service.ClearUserPermissionCache user cache)
      (CacheKey.aggregate user.nameSpace user.identifier user.orgID) = none := by
    rw [Service.ClearUserPermissionCache, cacheGet_delete, if_neg (by simp),
      cacheGet_delete, if_pos rfl]
  have hdirnone : cacheGet (Service.ClearUserPermissionCache user cache)
      (CacheKey.userDirect user.nameSpace user.identifier user.orgID) = none := by
    rw [Service.ClearUserPermissionCache, cacheGet_delete, if_pos rfl]
  have hframe : ∀ k, k ≠ CacheKey.aggregate user.nameSpace user.identifier user.orgID →
      k ≠ CacheKey.userDirect user.nameSpace user.identifier user.orgID →
      cacheEntry (Service.ClearUserPermissionCache user cache) k = cacheEntry cache k := by
    intro k hka hkd
    rw [Service.ClearUserPermissionCache, cacheEntry_delete,
      if_neg (fun h => hkd h.symm), cacheEntry_delete, if_neg (fun h => hka h.symm)]
  have htrans : ∀ k, k ≠ CacheKey.aggregate user.nameSpace user.identifier user.orgID →
      k ≠ CacheKey.userDirect user.nameSpace user.identifier user.orgID →
      cacheGet (Service.ClearUserPermissionCache user cache) k = cacheGet cache k := by
    intro k hka hkd
    rw [cacheGet, cacheGet, hframe k hka hkd]
  have hbasic : ∃ ps, cachedBasicRolesLoop s user.orgID options user.orgRoles
      (Service.ClearUserPermissionCache user cache) =
      (Except.ok ps, Service.ClearUserPermissionCache user cache, []) := by
    refine cachedBasicRolesLoop_warm s user.orgID options hreload user.orgRoles _ ?_
    intro role hm
    rw [htrans _ (by simp) (by simp)]
    exact hwarmBasic role hm
  have hmissT : (teamCacheScan (Service.ClearUserPermissionCache user cache)
      user.orgID user.teams).2 = [] := by
    rw [teamCacheScan_miss, List.filter_eq_nil_iff]
    intro t ht
    rw [htrans _ (by simp) (by simp)]
    have := hwarmTeam t ht
    simp [Option.isNone_iff_eq_none]
    exact Option.isSome_iff_exists.mp this |>.elim (fun v hv => by simp [hv])
  have hteams : s.getCachedTeamsPermissions (Service.ClearUserPermissionCache user cache)
      user options =
      (Except.ok (teamCacheScan (Service.ClearUserPermissionCache user cache)
        user.orgID user.teams).1, Service.ClearUserPermissionCache user cache, []) := by
    simp [Service.getCachedTeamsPermissions, hreload, hmissT]
  have hdirProd : s.getUserDirectPermissions user =
      (Except.ok (if s.features.nestedFolders then dps ++ [SharedWithMeFolderPermission]
        else dps),
        [StoreCall.userPerms
          { orgID := user.orgID, userID := uid, roles := [], teamIDs := [],
            rolePfxs := OSSRolesPrefixes }]) := by
    by_cases hn : s.features.nestedFolders <;>
      simp [Service.getUserDirectPermissions, hid, hstore, hn]
  have hdir : s.getCachedUserDirectPermissions (Service.ClearUserPermissionCache user cache)
      user options =
      (Except.ok (if s.features.nestedFolders then dps ++ [SharedWithMeFolderPermission]
        else dps),
        cacheSet (Service.ClearUserPermissionCache user cache)
          (CacheKey.userDirect user.nameSpace user.identifier user.orgID)
          (if s.features.nestedFolders then dps ++ [SharedWithMeFolderPermission] else dps)
          cacheTTL,
        [StoreCall.userPerms
          { orgID := user.orgID, userID := uid, roles := [], teamIDs := [],
            rolePfxs := OSSRolesPrefixes }]) := by
    simp [Service.getCachedUserDirectPermissions, Service.getCachedPermissions, hreload,
      hdirnone, hdirProd]
  rcases hbasic with ⟨ps, hps⟩
  refine ⟨hagg, hdirnone, hframe, ?_, ?_⟩
  · simp [Service.getCachedUserPermissions, Service.getCachedBasicRolesPermissions,
      hps, hteams, hdir]
  · simp only [Service.getCachedUserPermissions, Service.getCachedBasicRolesPermissions,
      hps, hteams, hdir]
    rw [cacheGet_set, if_pos rfl]

/-- The direct permission the sample model stores for every user. -/
def directPerm : Permission where
  action := "datasources:read"
  scope := "datasources:*"

/-- A fully warm cache for the sample principal: basic-role, team,
user-direct and aggregate entries. -/
def warmCache : Cache :=
  [(CacheKey.basicRole "Viewer" 1, [SharedWithMeFolderPermission], 60),
   (CacheKey.team 10 1, [hitPerm], 60),
   (CacheKey.userDirect "user" "42" 1, [directPerm], 60),
   (CacheKey.aggregate "user" "42" 1, [directPerm], 60)]

/-- C8 witness: clearing the sample principal removes its aggregate and
direct entries, and the following cached resolution issues exactly the
one direct-permission store call. -/
theorem C8_clear_user_permission_cache_witness :
    cacheGet (Service.ClearUserPermissionCache sampleUser warmCache)
      (CacheKey.aggregate "user" "42" 1) = none ∧
    cacheGet (Service.ClearUserPermissionCache sampleUser warmCache)
      (CacheKey.userDirect "user" "42" 1) = none ∧
    (sampleService.getCachedUserPermissions
      (Service.ClearUserPermissionCache sampleUser warmCache) sampleUser
      { reloadCache := false }).2.2 =
      [StoreCall.userPerms
        { orgID := 1, userID := 42, roles := [], teamIDs := [],
          rolePfxs := OSSRolesPrefixes }] :=
  have h := C8_clear_user_permission_cache sampleService warmCache sampleUser
    { reloadCache := false } 42 [directPerm] rfl (by decide) (by decide) rfl rfl
  ⟨h.1, h.2.1, h.2.2.2.1⟩

/-- Error invariant for trace-producing functions: a recorded call whose
store response is an error forces the result to be exactly that error. -/
def ErrInv (st : Store) (r : Except Err (List Permission) × List StoreCall) : Prop :=
  ∀ c ∈ r.2, ∀ e, storeErrOf st c = some e → r.1 = Except.error e

/-- Error invariant for cache-threading functions. -/
def ErrInv3 (st : Store) (r : Except Err (List Permission) × Cache × List StoreCall) : Prop :=
  ∀ c ∈ r.2.2, ∀ e, storeErrOf st c = some e → r.1 = Except.error e

/-- The uncached path propagates store errors unmodified. -/
lemma errInv_getUserPermissions (s : Service) (user : Requester) (options : Options) :
    ErrInv s.store (s.getUserPermissions user options) := by
  intro c hc e he
  simp only [Service.getUserPermissions] at hc ⊢
  cases hid : UserIdentifier user.nameSpace user.identifier with
  | error e2 => simp [hid] at hc
  | ok userID =>
    simp only [hid, List.mem_singleton] at hc
    subst hc
    simp only [storeErrOf] at he
    cases hq : s.store.getUserPermissions
        { orgID := user.orgID, userID := userID, roles := user.orgRoles,
          teamIDs := user.teams, rolePfxs := OSSRolesPrefixes } with
    | error e2 =>
      rw [hq] at he
      simp at he
      simp [hid, hq, he]
    | ok v =>
      rw [hq] at he
      simp at he

/-- The basic-role producer propagates store errors unmodified. -/
lemma errInv_getBasicRolePermissions (s : Service) (role : String) (orgID : Int) :
    ErrInv s.store (s.getBasicRolePermissions role orgID) := by
  intro c hc e he
  simp only [Service.getBasicRolePermissions, List.mem_singleton] at hc
  subst hc
  simp only [storeErrOf] at he
  simp only [Service.getBasicRolePermissions]
  cases hq : s.store.getBasicRolesPermissions
      { orgID := orgID, userID := 0, roles := [role], teamIDs := [],
        rolePfxs := OSSRolesPrefixes } with
  | error e2 =>
    rw [hq] at he
    simp at he
    simp [hq, he]
  | ok v =>
    rw [hq] at he
    simp at he

/-- The direct-permission producer propagates store errors unmodified. -/
lemma errInv_getUserDirectPermissions (s : Service) (user : Requester) :
    ErrInv s.store (s.getUserDirectPermissions user) := by
  intro c hc e he
  simp only [Service.getUserDirectPermissions] at hc ⊢
  cases hid : UserIdentifier user.nameSpace user.identifier with
  | error e2 => simp [hid] at hc
  | ok userID =>
    simp only [hid, List.mem_singleton] at hc
    subst hc
    simp only [storeErrOf] at he
    cases hq : s.store.getUserPermissions
        { orgID := user.orgID, userID := userID, roles := [], teamIDs := [],
          rolePfxs := OSSRolesPrefixes } with
    | error e2 =>
      rw [hq] at he
      simp at he
      simp [hid, hq, he]
    | ok v =>
      rw [hq] at he
      simp at he

/-- The generic cache helper propagates producer errors unmodified. -/
lemma errInv3_getCachedPermissions (s : Service) (cache : Cache) (key : CacheKey)
    (fn : GetPermissionsFn) (options : Options) (hfn : ErrInv s.store (fn ())) :
    ErrInv3 s.store (s.getCachedPermissions cache key fn options) := by
  intro c hc e he
  simp only [Service.getCachedPermissions] at hc ⊢
  cases hm : (if options.reloadCache then none else cacheGet cache key) with
  | some v => simp [hm] at hc
  | none =>
    rcases hp : fn () with ⟨res, calls⟩
    cases res with
    | error e2 =>
      simp only [hm, hp] at hc
      have hcalls := hfn c (by rw [hp]; exact hc) e he
      rw [hp] at hcalls
      simp at hcalls
      simp [hm, hp, hcalls]
    | ok v =>
      simp only [hm, hp] at hc
      have hcalls := hfn c (by rw [hp]; exact hc) e he
      rw [hp] at hcalls
      simp at hcalls

/-- The basic-role loop propagates store errors unmodified. -/
lemma errInv3_cachedBasicRolesLoop (s : Service) (orgID : Int) (options : Options)
    (roles : List String) (cache : Cache) :
    ErrInv3 s.store (cachedBasicRolesLoop s orgID options roles cache) := by
  induction roles generalizing cache with
  | nil =>
    intro c hc e he
    simp [cachedBasicRolesLoop] at hc
  | cons r rest ih =>
    intro c hc e he
    have hhead : ErrInv3 s.store (s.getCachedBasicRolePermissions cache r orgID options) :=
      errInv3_getCachedPermissions s cache (CacheKey.basicRole r orgID)
        (fun _ => s.getBasicRolePermissions r orgID) options
        (errInv_getBasicRolePermissions s r orgID)
    rcases h1 : s.getCachedBasicRolePermissions cache r orgID options with ⟨res1, c2, t1⟩
    rw [h1] at hhead
    cases res1 with
    | error e1 =>
      simp only [cachedBasicRolesLoop, h1] at hc ⊢
      have := hhead c hc e he
      simp at this
      simp [this]
    | ok v1 =>
      rcases h2 : cachedBasicRolesLoop s orgID options rest c2 with ⟨res2, c3, t2⟩
      cases res2 with
      | error e2 =>
        simp only [cachedBasicRolesLoop, h1, h2] at hc ⊢
        rcases List.mem_append.mp hc with hm | hm
        · have := hhead c hm e he
          simp at this
        · have := ih c2 c (by rw [h2]; exact hm) e he
          rw [h2] at this
          simp at this
          simp [this]
      | ok v2 =>
        simp only [cachedBasicRolesLoop, h1, h2] at hc ⊢
        rcases List.mem_append.mp hc with hm | hm
        · have := hhead c hm e he
          simp at this
        · have := ih c2 c (by rw [h2]; exact hm) e he
          rw [h2] at this
          simp at this

/-- The cached team sub-query propagates store errors unmodified. -/
lemma errInv3_getCachedTeamsPermissions (s : Service) (cache : Cache) (user : Requester)
    (options : Options) :
    ErrInv3 s.store (s.getCachedTeamsPermissions cache user options) := by
  intro c hc e he
  simp only [Service.getCachedTeamsPermissions, Service.getTeamsPermissions] at hc ⊢
  cases hemp : (if options.reloadCache then ([], user.teams)
      else teamCacheScan cache user.orgID user.teams).2.isEmpty with
  | true => simp [hemp] at hc
  | false =>
    cases hq : s.store.getTeamsPermissions
        { orgID := user.orgID, userID := 0, roles := [],
          teamIDs := (if options.reloadCache then ([], user.teams)
            else teamCacheScan cache user.orgID user.teams).2,
          rolePfxs := OSSRolesPrefixes } with
    | error e2 =>
      simp only [hemp, Bool.false_eq_true, if_false, hq, List.mem_singleton] at hc
      subst hc
      simp only [storeErrOf, hq] at he
      simp at he
      simp [hemp, hq, he]
    | ok v =>
      simp only [hemp, Bool.false_eq_true, if_false, hq, List.mem_singleton] at hc
      subst hc
      simp only [storeErrOf, hq] at he
      simp at he

/-- The cached resolution propagates store errors unmodified. -/
lemma errInv3_getCachedUserPermissions (s : Service) (cache : Cache) (user : Requester)
    (options : Options) :
    ErrInv3 s.store (s.getCachedUserPermissions cache user options) := by
  intro c hc e he
  simp only [Service.getCachedUserPermissions, Service.getCachedBasicRolesPermissions] at hc ⊢
  have hbasic := errInv3_cachedBasicRolesLoop s user.orgID options user.orgRoles cache
  rcases h1 : cachedBasicRolesLoop s user.orgID options user.orgRoles cache with ⟨r1, c1, t1⟩
  rw [h1] at hbasic
  cases r1 with
  | error e1 =>
    simp only [h1] at hc ⊢
    have := hbasic c hc e he
    simp at this
    simp [this]
  | ok v1 =>
    have hteams := errInv3_getCachedTeamsPermissions s c1 user options
    rcases h2 : s.getCachedTeamsPermissions c1 user options with ⟨r2, c2, t2⟩
    rw [h2] at hteams
    cases r2 with
    | error e2 =>
      simp only [h1, h2] at hc ⊢
      rcases List.mem_append.mp hc with hm | hm
      · have := hbasic c hm e he
        simp at this
      · have := hteams c hm e he
        simp at this
        simp [this]
    | ok v2 =>
      have hdir : ErrInv3 s.store (s.getCachedUserDirectPermissions c2 user options) :=
        errInv3_getCachedPermissions s c2
          (CacheKey.userDirect user.nameSpace user.identifier user.orgID)
          (fun _ => s.getUserDirectPermissions user) options
          (errInv_getUserDirectPermissions s user)
      rcases h3 : s.getCachedUserDirectPermissions c2 user options with ⟨r3, c3, t3⟩
      rw [h3] at hdir
      cases r3 with
      | error e3 =>
        simp only [h1, h2, h3] at hc ⊢
        rcases List.mem_append.mp hc with hm | hm
        · rcases List.mem_append.mp hm with hm2 | hm2
          · have := hbasic c hm2 e he
            simp at this
          · have := hteams c hm2 e he
            simp at this
        · have := hdir c hm e he
          simp at this
          simp [this]
      | ok v3 =>
        simp only [h1, h2, h3] at hc ⊢
        rcases List.mem_append.mp hc with hm | hm
        · rcases List.mem_append.mp hm with hm2 | hm2
          · have := hbasic c hm2 e he
            simp at this
          · have := hteams c hm2 e he
            simp at this
        · have := hdir c hm e he
          simp at this

/-- C3: if any store call recorded during a resolution of
GetUserPermissions received an error response, the resolution result is
exactly that error. The Go code returns the pair (nil, err) there, which
Except.error embeds: no partial or best-effort permission list
accompanies a store error. -/
theorem C3_store_error_aborts_resolution (s : Service) (cache : Cache) (user : Requester)
    (options : Options) (c : StoreCall) (e : Err)
    (hc : c ∈ (s.GetUserPermissions cache user options).2.2)
    (he : storeErrOf s.store c = some e) :
    (s.GetUserPermissions cache user options).1 = Except.error e := by
  simp only [Service.GetUserPermissions] at hc ⊢
  cases hcond : (!s.cfg.rbacPermissionCache || !user.hasUniqueId) with
  | true =>
    simp only [hcond, if_true] at hc ⊢
    exact errInv_getUserPermissions s user options c hc e he
  | false =>
    simp only [hcond, Bool.false_eq_true, if_false] at hc ⊢
    exact errInv3_getCachedUserPermissions s cache user options c hc e he

/-- C3 witness: on the failing store, the concrete cached resolution of
the sample user records the basic-role store call, whose response is an
error, and the resolution returns exactly that error. -/
theorem C3_store_error_aborts_resolution_witness :
    StoreCall.basicRolesPerms
      { orgID := 1, userID := 0, roles := ["Viewer"], teamIDs := [],
        rolePfxs := OSSRolesPrefixes } ∈
      (failingService.GetUserPermissions [] sampleUser { reloadCache := false }).2.2 ∧
    storeErrOf failingService.store
      (StoreCall.basicRolesPerms
        { orgID := 1, userID := 0, roles := ["Viewer"], teamIDs := [],
          rolePfxs := OSSRolesPrefixes }) = some (Err.storeError "boom") ∧
    (failingService.GetUserPermissions [] sampleUser { reloadCache := false }).1 =
      Except.error (Err.storeError "boom") :=
  ⟨by decide, rfl,
    C3_store_error_aborts_resolution failingService [] sampleUser { reloadCache := false }
      (StoreCall.basicRolesPerms
        { orgID := 1, userID := 0, roles := ["Viewer"], teamIDs := [],
          rolePfxs := OSSRolesPrefixes })
      (Err.storeError "boom") (by decide) rfl⟩

/-- The numeric ids carried by scoped view grants: scopes of exactly
three colon-separated parts whose third part parses as an integer. -/
def parsedViewIds (scopes : List String) : List Int :=
  scopes.filterMap (fun scope =>
    let parts := splitOnColon scope
    if parts.length = 3 then parseInt64 (thirdPart parts) else none)

/-- One unfolding step of the parsed-id list. -/
lemma parsedViewIds_cons (sc : String) (rest : List String) :
    parsedViewIds (sc :: rest) =
      (if (splitOnColon sc).length = 3 then parseInt64 (thirdPart (splitOnColon sc))
        else none).toList ++ parsedViewIds rest := by
  cases h : (if (splitOnColon sc).length = 3 then parseInt64 (thirdPart (splitOnColon sc))
      else none) with
  | some id => simp [parsedViewIds, List.filterMap_cons, h]
  | none => simp [parsedViewIds, List.filterMap_cons, h]

/-- Without any wildcard-suffixed scope, the id-collecting loop returns
the accumulator followed by the parsed numeric ids. -/
lemma collectViewIds_no_wildcard (scopes : List String)
    (hw : ∀ sc ∈ scopes, strEndsWith sc "*" = false) :
    ∀ acc, collectViewIds scopes acc = some (acc ++ parsedViewIds scopes) := by
  induction scopes with
  | nil => intro acc; simp [collectViewIds, parsedViewIds]
  | cons sc rest ih =>
    intro acc
    have hsc : strEndsWith sc "*" = false := hw sc (List.mem_cons_self sc rest)
    have hrest : ∀ sc2 ∈ rest, strEndsWith sc2 "*" = false :=
      fun sc2 hm => hw sc2 (List.mem_cons_of_mem sc hm)
    simp only [collectViewIds, hsc, Bool.false_eq_true, if_false]
    by_cases hlen : (splitOnColon sc).length = 3
    · rw [if_pos hlen]
      cases hp : parseInt64 (thirdPart (splitOnColon sc)) with
      | some id =>
        show collectViewIds rest (acc ++ [id]) = some (acc ++ parsedViewIds (sc :: rest))
        rw [ih hrest (acc ++ [id]), parsedViewIds_cons, if_pos hlen, hp]
        simp
      | none =>
        show collectViewIds rest acc = some (acc ++ parsedViewIds (sc :: rest))
        rw [ih hrest acc, parsedViewIds_cons, if_pos hlen, hp]
        simp
    · rw [if_neg hlen, ih hrest acc, parsedViewIds_cons, if_neg hlen]
      simp

/-- With some wildcard-suffixed scope, the id-collecting loop reports
every user visible. -/
lemma collectViewIds_wildcard (scopes : List String)
    (hw : ∃ sc ∈ scopes, strEndsWith sc "*" = true) :
    ∀ acc, collectViewIds scopes acc = none := by
  induction scopes with
  | nil => rcases hw with ⟨sc, hm, _⟩; simp at hm
  | cons sc rest ih =>
    intro acc
    by_cases hsc : strEndsWith sc "*" = true
    · simp [collectViewIds, hsc]
    · have hsc' : strEndsWith sc "*" = false := by
        cases h : strEndsWith sc "*"
        · rfl
        · exact absurd h hsc
      have hrest : ∃ sc2 ∈ rest, strEndsWith sc2 "*" = true := by
        rcases hw with ⟨sc2, hm2, hw2⟩
        rcases List.mem_cons.mp hm2 with rfl | hm2
        · exact absurd hw2 hsc
        · exact ⟨sc2, hm2, hw2⟩
      simp only [collectViewIds, hsc', Bool.false_eq_true, if_false]
      by_cases hlen : (splitOnColon sc).length = 3
      · rw [if_pos hlen]
        cases hp : parseInt64 (thirdPart (splitOnColon sc)) with
        | some id => exact ih hrest (acc ++ [id])
        | none => exact ih hrest acc
      · rw [if_neg hlen]
        exact ih hrest acc

/-- A requester without the view-user-permissions action sees nobody. -/
lemma canView_no_action (perms : List (String × List String)) (uid : Int)
    (h : alookup perms ActionUsersPermissionsRead = none) :
    canView perms uid = false := by
  unfold canView
  cases hemp : perms.isEmpty
  · simp [h]
  · simp

/-- A requester whose view scopes hold no wildcard sees only the parsed
numeric ids. -/
lemma canView_scoped (perms : List (String × List String)) (uid : Int) (scopes : List String)
    (h : alookup perms ActionUsersPermissionsRead = some scopes)
    (hw : ∀ sc ∈ scopes, strEndsWith sc "*" = false)
    (hv : canView perms uid = true) :
    uid ∈ parsedViewIds scopes := by
  have hne : perms.isEmpty = false := by
    cases hp : perms with
    | nil => rw [hp] at h; simp [alookup] at h
    | cons a l => simp
  unfold canView at hv
  rw [hne] at hv
  simp only [Bool.false_eq_true, if_false, h] at hv
  rw [collectViewIds_no_wildcard scopes hw []] at hv
  simp only [List.nil_append] at hv
  exact List.elem_iff.mp hv

/-- A requester holding a wildcard-suffixed view scope sees everybody. -/
lemma canView_wildcard (perms : List (String × List String)) (uid : Int)
    (scopes : List String)
    (h : alookup perms ActionUsersPermissionsRead = some scopes)
    (hw : ∃ sc ∈ scopes, strEndsWith sc "*" = true) :
    canView perms uid = true := by
  have hne : perms.isEmpty = false := by
    cases hp : perms with
    | nil => rw [hp] at h; simp [alookup] at h
    | cons a l => simp
  unfold canView
  rw [hne]
  simp only [Bool.false_eq_true, if_false, h]
  rw [collectViewIds_wildcard scopes hw []]

/-- Every user the merged bulk result mentions passed the canView gate. -/
lemma searchMergeUser_sound (usrPerms : List (String × List String))
    (basicPermissions : List (String × List Permission))
    (usersPermissions : List (Int × List Permission))
    (usersRoles : List (Int × List String)) (uid : Int) (ps : List Permission)
    (h : (uid, ps) ∈
      usersRoles.filterMap (searchMergeUser usrPerms basicPermissions usersPermissions)) :
    canView usrPerms uid = true := by
  rcases List.mem_filterMap.mp h with ⟨entry, _, hf⟩
  unfold searchMergeUser at hf
  cases hcv : canView usrPerms entry.1 with
  | false => simp [hcv] at hf
  | true =>
    simp only [hcv, Bool.not_true, Bool.false_eq_true, if_false] at hf
    split at hf
    · have : entry.1 = uid := (Prod.mk.injEq .. ▸ Option.some.injEq .. ▸ hf).1
      rw [← this]
      exact hcv
    · exact absurd hf (by simp)

/-- C2: the bulk search path only reveals users the requester may view:
with no view-user-permissions action the result is empty; with only
scoped grants of the shape kind:id:number, every returned user id is one
of the parsed numeric ids; with a wildcard-suffixed scope the gate admits
every id. In particular a requester holding only the scoped grant for
user 7 never receives another user, whatever the store returned. -/
theorem C2_search_visibility_gate (s : Service) (usr : Requester) (options : SearchOptions)
    (usersRoles : List (Int × List String)) (usersPermissions : List (Int × List Permission))
    (h1 : s.store.getUsersBasicRoles none usr.orgID = Except.ok usersRoles)
    (h2 : s.store.searchUsersPermissions usr.orgID
      { action := options.action, actionPfx := options.actionPfx, scope := options.scope,
        rolePfxs := OSSRolesPrefixes, namespacedID := options.namespacedID } =
      Except.ok usersPermissions) :
    ∃ res, (s.searchUsersPermissionsBulk usr options).1 = Except.ok res ∧
      (∀ uid ps, (uid, ps) ∈ res → canView usr.permissions uid = true) ∧
      (alookup usr.permissions ActionUsersPermissionsRead = none → res = []) ∧
      (∀ scopes, alookup usr.permissions ActionUsersPermissionsRead = some scopes →
        (∃ sc ∈ scopes, strEndsWith sc "*" = true) →
        ∀ uid, canView usr.permissions uid = true) ∧
      (∀ scopes, alookup usr.permissions ActionUsersPermissionsRead = some scopes →
        (∀ sc ∈ scopes, strEndsWith sc "*" = false) →
        ∀ uid ps, (uid, ps) ∈ res → uid ∈ parsedViewIds scopes) ∧
      (alookup usr.permissions ActionUsersPermissionsRead = some ["users:id:7"] →
        ∀ uid ps, (uid, ps) ∈ res → uid = 7) := by
  refine ⟨usersRoles.filterMap (searchMergeUser usr.permissions
    (basicPermissionsMap s.roles
      { action := options.action, actionPfx := options.actionPfx, scope := options.scope,
        rolePfxs := OSSRolesPrefixes, namespacedID := options.namespacedID })
    usersPermissions), ?_, ?_, ?_, ?_, ?_, ?_⟩
  · simp only [Service.searchUsersPermissionsBulk, h1, h2]
  · intro uid ps hmem
    exact searchMergeUser_sound usr.permissions _ usersPermissions usersRoles uid ps hmem
  · intro hna
    rw [List.filterMap_eq_nil_iff]
    intro entry hmem
    unfold searchMergeUser
    rw [canView_no_action usr.permissions entry.1 hna]
    simp
  · intro scopes hs hw uid
    exact canView_wildcard usr.permissions uid scopes hs hw
  · intro scopes hs hw uid ps hmem
    exact canView_scoped usr.permissions uid scopes hs hw
      (searchMergeUser_sound usr.permissions _ usersPermissions usersRoles uid ps hmem)
  · intro hs uid ps hmem
    have h7 := canView_scoped usr.permissions uid ["users:id:7"] hs (by decide)
      (searchMergeUser_sound usr.permissions _ usersPermissions usersRoles uid ps hmem)
    have : parsedViewIds ["users:id:7"] = [7] := by decide
    rw [this] at h7
    exact List.mem_singleton.mp h7

/-- A store returning basic roles and stored permissions for users 7 and
8 of the org. -/
def searchStore : Store where
  getUserPermissions := fun _ => Except.ok []
  getBasicRolesPermissions := fun _ => Except.ok []
  getTeamsPermissions := fun _ => Except.ok []
  getUsersBasicRoles := fun _ _ => Except.ok [(7, ["Viewer"]), (8, ["Viewer"])]
  searchUsersPermissions := fun _ _ => Except.ok [(7, [directPerm]), (8, [directPerm])]

/-- The sample service wired to the search store. -/
def searchService : Service where
  cfg := { rbacPermissionCache := true }
  features := sampleFeatures
  roles := [("Viewer", sampleViewer)]
  registrations := []
  store := searchStore

/-- A requester holding only the scoped view grant for user 7. -/
def searchRequester : Requester where
  orgID := 1
  nameSpace := "user"
  identifier := "1"
  orgRoles := ["Admin"]
  teams := []
  hasUniqueId := true
  permissions := [(ActionUsersPermissionsRead, ["users:id:7"])]

/-- C2 witness: although the store returns users 7 and 8, the requester
scoped to user 7 receives no user id other than 7. -/
theorem C2_search_visibility_gate_witness :
    ∃ res, (searchService.searchUsersPermissionsBulk searchRequester
      { action := "", actionPfx := "datasources:", scope := "", rolePfxs := [],
        namespacedID := "" }).1 = Except.ok res ∧
      ∀ uid ps, (uid, ps) ∈ res → uid = 7 :=
  have h := C2_search_visibility_gate searchService searchRequester
    { action := "", actionPfx := "datasources:", scope := "", rolePfxs := [],
      namespacedID := "" }
    [(7, ["Viewer"]), (8, ["Viewer"])] [(7, [directPerm]), (8, [directPerm])] rfl rfl
  ⟨h.choose, h.choose_spec.1, h.choose_spec.2.2.2.2.2 rfl⟩

/-- The generic cache helper on a producer that succeeds with a value
consistent with any entry under the key: the value is returned and the
cache is either untouched or overwritten with that same value. -/
lemma getCachedPermissions_ok (s : Service) (cache : Cache) (key : CacheKey)
    (fn : GetPermissionsFn) (options : Options) (v : List Permission) (calls : List StoreCall)
    (hfn : fn () = (Except.ok v, calls))
    (hcons : ∀ w, cacheGet cache key = some w → w = v) :
    (s.getCachedPermissions cache key fn options).1 = Except.ok v ∧
    ((s.getCachedPermissions cache key fn options).2.1 = cache ∨
     (s.getCachedPermissions cache key fn options).2.1 = cacheSet cache key v cacheTTL) := by
  unfold Service.getCachedPermissions
  cases hr : options.reloadCache with
  | true => simp [hr, hfn]
  | false =>
    cases hm : cacheGet cache key with
    | some w =>
      have hw := hcons w hm
      subst hw
      simp [hr, hm]
    | none => simp [hr, hm, hfn]

/-- Consistency survives overwriting a basic-role key with its expected
value. -/
lemma ModelConsistent_set_basic (s : Service) (m : StoreModel) (cache : Cache)
    (role : String) (orgID : Int) (ttl : Nat) (hcons : ModelConsistent s m cache) :
    ModelConsistent s m
      (cacheSet cache (CacheKey.basicRole role orgID) (expectedBasicRole s m role orgID) ttl) := by
  refine ⟨?_, ?_, ?_⟩
  · intro r o v hv
    rw [cacheGet_set] at hv
    by_cases hk : CacheKey.basicRole role orgID = CacheKey.basicRole r o
    · rw [if_pos hk] at hv
      have : role = r ∧ orgID = o := by simpa using hk
      rcases this with ⟨rfl, rfl⟩
      simpa using hv.symm
    · rw [if_neg hk] at hv
      exact hcons.1 r o v hv
  · intro teamID o v hv
    rw [cacheGet_set, if_neg (by simp)] at hv
    exact hcons.2.1 teamID o v hv
  · intro ns i o v hv
    rw [cacheGet_set, if_neg (by simp)] at hv
    exact hcons.2.2 ns i o v hv

/-- Consistency survives overwriting a team key with its expected value. -/
lemma ModelConsistent_set_team (s : Service) (m : StoreModel) (cache : Cache)
    (teamID : Int) (orgID : Int) (ttl : Nat) (hcons : ModelConsistent s m cache) :
    ModelConsistent s m
      (cacheSet cache (CacheKey.team teamID orgID) (m.teamPerms orgID teamID) ttl) := by
  refine ⟨?_, ?_, ?_⟩
  · intro r o v hv
    rw [cacheGet_set, if_neg (by simp)] at hv
    exact hcons.1 r o v hv
  · intro t o v hv
    rw [cacheGet_set] at hv
    by_cases hk : CacheKey.team teamID orgID = CacheKey.team t o
    · rw [if_pos hk] at hv
      have : teamID = t ∧ orgID = o := by simpa using hk
      rcases this with ⟨rfl, rfl⟩
      simpa using hv.symm
    · rw [if_neg hk] at hv
      exact hcons.2.1 t o v hv
  · intro ns i o v hv
    rw [cacheGet_set, if_neg (by simp)] at hv
    exact hcons.2.2 ns i o v hv

/-- Consistency survives overwriting a user-direct key with its expected
value. -/
lemma ModelConsistent_set_direct (s : Service) (m : StoreModel) (cache : Cache)
    (nameSpace identifier : String) (orgID : Int) (ttl : Nat)
    (hcons : ModelConsistent s m cache) :
    ModelConsistent s m
      (cacheSet cache (CacheKey.userDirect nameSpace identifier orgID)
        (expectedDirect s m nameSpace identifier orgID) ttl) := by
  refine ⟨?_, ?_, ?_⟩
  · intro r o v hv
    rw [cacheGet_set, if_neg (by simp)] at hv
    exact hcons.1 r o v hv
  · intro t o v hv
    rw [cacheGet_set, if_neg (by simp)] at hv
    exact hcons.2.1 t o v hv
  · intro ns i o v hv
    rw [cacheGet_set] at hv
    by_cases hk : CacheKey.userDirect nameSpace identifier orgID = CacheKey.userDirect ns i o
    · rw [if_pos hk] at hv
      have : nameSpace = ns ∧ identifier = i ∧ orgID = o := by simpa using hk
      rcases this with ⟨rfl, rfl, rfl⟩
      simpa using hv.symm
    · rw [if_neg hk] at hv
      exact hcons.2.2 ns i o v hv

/-- Concatenating pointwise-appended lists splits, as multisets, into the
two concatenations. -/
lemma concatMap_append_multiset {α β : Type} (f g : α → List β) (l : List α) :
    (↑(concatMap (fun a => f a ++ g a) l) : Multiset β) =
      ↑(concatMap f l) + ↑(concatMap g l) := by
  induction l with
  | nil => simp [concatMap]
  | cons a rest ih =>
    show (↑((f a ++ g a) ++ concatMap (fun a => f a ++ g a) rest) : Multiset β) =
      ↑(f a ++ concatMap f rest) + ↑(g a ++ concatMap g rest)
    rw [← Multiset.coe_add, ← Multiset.coe_add, ← Multiset.coe_add, ← Multiset.coe_add, ih]
    abel

/-- Over the model store, the basic-role producer yields the expected
value. -/
lemma getBasicRolePermissions_model (m : StoreModel) (s : Service) (hs : s.store = m.toStore)
    (role : String) (orgID : Int) :
    s.getBasicRolePermissions role orgID =
      (Except.ok (expectedBasicRole s m role orgID),
        [StoreCall.basicRolesPerms
          { orgID := orgID, userID := 0, roles := [role], teamIDs := [],
            rolePfxs := OSSRolesPrefixes }]) := by
  simp [Service.getBasicRolePermissions, hs, StoreModel.toStore, expectedBasicRole, concatMap]

/-- Over the model store and a consistent cache, the basic-role loop
returns the expected permissions of every held role and preserves
consistency. -/
lemma cachedBasicRolesLoop_model (m : StoreModel) (s : Service) (hs : s.store = m.toStore)
    (orgID : Int) (options : Options) (roles : List String) (cache : Cache)
    (hcons : ModelConsistent s m cache) :
    ∃ c2 calls, cachedBasicRolesLoop s orgID options roles cache =
      (Except.ok (concatMap (fun r => expectedBasicRole s m r orgID) roles), c2, calls) ∧
      ModelConsistent s m c2 := by
  induction roles generalizing cache with
  | nil => exact ⟨cache, [], rfl, hcons⟩
  | cons r rest ih =>
    have hok := getCachedPermissions_ok s cache (CacheKey.basicRole r orgID)
      (fun _ => s.getBasicRolePermissions r orgID) options
      (expectedBasicRole s m r orgID) _ (getBasicRolePermissions_model m s hs r orgID)
      (fun w hw => hcons.1 r orgID w hw)
    rcases h1 : s.getCachedPermissions cache (CacheKey.basicRole r orgID)
      (fun _ => s.getBasicRolePermissions r orgID) options with ⟨res1, c1, t1⟩
    rw [h1] at hok
    obtain ⟨hres1, hcache⟩ := hok
    have hres1' : res1 = Except.ok (expectedBasicRole s m r orgID) := hres1
    have hc1 : ModelConsistent s m c1 := by
      rcases hcache with h | h
      · have h' : c1 = cache := h
        rw [h']
        exact hcons
      · have h' : c1 = cacheSet cache (CacheKey.basicRole r orgID)
            (expectedBasicRole s m r orgID) cacheTTL := h
        rw [h']
        exact ModelConsistent_set_basic s m cache r orgID cacheTTL hcons
    rcases ih c1 hc1 with ⟨c2, calls2, hloop, hc2⟩
    refine ⟨c2, t1 ++ calls2, ?_, hc2⟩
    simp only [cachedBasicRolesLoop, Service.getCachedBasicRolePermissions, h1, hres1', hloop,
      concatMap]

/-- Under a cache consistent for team keys, hit permissions plus the
model permissions of the missed teams make up, as a multiset, the model
permissions of all scanned teams. -/
lemma teamCacheScan_model (m : StoreModel) (cache : Cache) (orgID : Int)
    (hconsT : ∀ teamID v, cacheGet cache (CacheKey.team teamID orgID) = some v →
      v = m.teamPerms orgID teamID) (teams : List Int) :
    (↑(teamCacheScan cache orgID teams).1 : Multiset Permission) +
      ↑(concatMap (m.teamPerms orgID) (teamCacheScan cache orgID teams).2) =
      ↑(concatMap (m.teamPerms orgID) teams) := by
  induction teams with
  | nil => simp [teamCacheScan, concatMap]
  | cons t rest ih =>
    cases hget : cacheGet cache (CacheKey.team t orgID) with
    | some v =>
      have hv := hconsT t v hget
      simp only [teamCacheScan, hget]
      rw [show concatMap (m.teamPerms orgID) (t :: rest) =
        m.teamPerms orgID t ++ concatMap (m.teamPerms orgID) rest from rfl]
      rw [← Multiset.coe_add, ← Multiset.coe_add, hv, ← ih]
      abel
    | none =>
      simp only [teamCacheScan, hget]
      rw [show concatMap (m.teamPerms orgID)
          (t :: (teamCacheScan cache orgID rest).2) =
        m.teamPerms orgID t ++ concatMap (m.teamPerms orgID)
          (teamCacheScan cache orgID rest).2 from rfl]
      rw [show concatMap (m.teamPerms orgID) (t :: rest) =
        m.teamPerms orgID t ++ concatMap (m.teamPerms orgID) rest from rfl]
      rw [← Multiset.coe_add, ← Multiset.coe_add, ← ih]
      abel

/-- The batched team response of the model store carries, as a multiset,
exactly the model permissions of the queried teams (teams without rows
are omitted but contribute nothing). -/
lemma teamResponse_multiset (m : StoreModel) (orgID : Int) (miss : List Int) :
    (↑(concatMap Prod.snd (miss.filterMap (fun teamID =>
      let ps := m.teamPerms orgID teamID
      if ps.isEmpty then none else some (teamID, ps)))) : Multiset Permission) =
      ↑(concatMap (m.teamPerms orgID) miss) := by
  induction miss with
  | nil => simp [concatMap]
  | cons t rest ih =>
    cases hemp : (m.teamPerms orgID t).isEmpty with
    | true =>
      have h0 : m.teamPerms orgID t = [] := List.isEmpty_iff.mp hemp
      simp only [List.filterMap_cons, hemp, if_true]
      rw [show concatMap (m.teamPerms orgID) (t :: rest) =
        m.teamPerms orgID t ++ concatMap (m.teamPerms orgID) rest from rfl]
      rw [h0, List.nil_append]
      exact ih
    | false =>
      simp only [List.filterMap_cons, hemp, Bool.false_eq_true, if_false]
      rw [show concatMap Prod.snd ((t, m.teamPerms orgID t) ::
          rest.filterMap (fun teamID =>
            let ps := m.teamPerms orgID teamID
            if ps.isEmpty then none else some (teamID, ps))) =
        m.teamPerms orgID t ++ concatMap Prod.snd (rest.filterMap (fun teamID =>
          let ps := m.teamPerms orgID teamID
          if ps.isEmpty then none else some (teamID, ps))) from rfl]
      rw [show concatMap (m.teamPerms orgID) (t :: rest) =
        m.teamPerms orgID t ++ concatMap (m.teamPerms orgID) rest from rfl]
      rw [← Multiset.coe_add, ← Multiset.coe_add, ih]

/-- Writing back a batched response whose entries carry the model values
preserves consistency. -/
lemma writeTeams_model_consistent (s : Service) (m : StoreModel) (orgID : Int)
    (M : List (Int × List Permission)) (cache : Cache)
    (hcons : ModelConsistent s m cache)
    (hM : ∀ e ∈ M, e.2 = m.teamPerms orgID e.1) :
    ModelConsistent s m (writeTeams orgID cache M) := by
  induction M generalizing cache with
  | nil => exact hcons
  | cons e rest ih =>
    have he : e.2 = m.teamPerms orgID e.1 := hM e (by simp)
    show ModelConsistent s m
      (writeTeams orgID (cacheSet cache (CacheKey.team e.1 orgID) e.2 cacheTTL) rest)
    refine ih _ ?_ (fun e2 hm => hM e2 (List.mem_cons_of_mem e hm))
    rw [he]
    exact ModelConsistent_set_team s m cache e.1 orgID cacheTTL hcons

/-- Over the model store, fetching a miss list yields the filtered
response map, whose write-back preserves consistency and whose
permissions are, as a multiset, the model permissions of the missed
teams. -/
lemma teamsMissFetch_model (m : StoreModel) (s : Service) (hs : s.store = m.toStore)
    (orgID : Int) (cache : Cache) (hcons : ModelConsistent s m cache)
    (missList : List Int) :
    s.getTeamsPermissions missList orgID =
      (Except.ok (missList.filterMap (fun teamID =>
        let ps := m.teamPerms orgID teamID
        if ps.isEmpty then none else some (teamID, ps))),
        [StoreCall.teamsPerms
          { orgID := orgID, userID := 0, roles := [], teamIDs := missList,
            rolePfxs := OSSRolesPrefixes }]) ∧
    (↑(concatMap Prod.snd (missList.filterMap (fun teamID =>
        let ps := m.teamPerms orgID teamID
        if ps.isEmpty then none else some (teamID, ps)))) : Multiset Permission) =
      ↑(concatMap (m.teamPerms orgID) missList) ∧
    ModelConsistent s m (writeTeams orgID cache (missList.filterMap (fun teamID =>
      let ps := m.teamPerms orgID teamID
      if ps.isEmpty then none else some (teamID, ps)))) := by
  refine ⟨?_, teamResponse_multiset m orgID missList, ?_⟩
  · simp [Service.getTeamsPermissions, hs, StoreModel.toStore]
  · refine writeTeams_model_consistent s m orgID _ cache hcons ?_
    intro e hmem
    rcases List.mem_filterMap.mp hmem with ⟨t, _, hf⟩
    by_cases hemp : (m.teamPerms orgID t).isEmpty
    · simp [hemp] at hf
    · simp only [hemp, Bool.false_eq_true, if_false] at hf
      have : (t, m.teamPerms orgID t) = e := Option.some.injEq .. ▸ hf
      rw [← this]

/-- Over the model store and a consistent cache, the cached team
sub-query returns, as a multiset, the model permissions of every team of
the principal, and preserves consistency. -/
lemma getCachedTeamsPermissions_model (m : StoreModel) (s : Service) (hs : s.store = m.toStore)
    (cache : Cache) (user : Requester) (options : Options)
    (hcons : ModelConsistent s m cache) :
    ∃ ps c2 calls, s.getCachedTeamsPermissions cache user options = (Except.ok ps, c2, calls) ∧
      (↑ps : Multiset Permission) = ↑(concatMap (m.teamPerms user.orgID) user.teams) ∧
      ModelConsistent s m c2 := by
  have hfetch := teamsMissFetch_model m s hs user.orgID cache hcons
  unfold Service.getCachedTeamsPermissions
  cases hr : options.reloadCache with
  | true =>
    simp only [hr, if_true]
    cases hemp : user.teams.isEmpty with
    | true =>
      have h0 : user.teams = [] := List.isEmpty_iff.mp hemp
      exact ⟨[], cache, [], by simp [hemp], by simp [h0, concatMap], hcons⟩
    | false =>
      rcases hfetch user.teams with ⟨hcall, hmult, hwcons⟩
      refine ⟨[] ++ concatMap Prod.snd (user.teams.filterMap (fun teamID =>
          let ps := m.teamPerms user.orgID teamID
          if ps.isEmpty then none else some (teamID, ps))),
        writeTeams user.orgID cache (user.teams.filterMap (fun teamID =>
          let ps := m.teamPerms user.orgID teamID
          if ps.isEmpty then none else some (teamID, ps))),
        [StoreCall.teamsPerms
          { orgID := user.orgID, userID := 0, roles := [], teamIDs := user.teams,
            rolePfxs := OSSRolesPrefixes }], ?_, ?_, hwcons⟩
      · simp only [hemp, Bool.false_eq_true, if_false, hcall]
      · rw [List.nil_append]
        exact hmult
  | false =>
    simp only [hr, Bool.false_eq_true, if_false]
    have hscan := teamCacheScan_model m cache user.orgID
      (fun teamID v hv => hcons.2.1 teamID user.orgID v hv) user.teams
    cases hemp : (teamCacheScan cache user.orgID user.teams).2.isEmpty with
    | true =>
      have h0 : (teamCacheScan cache user.orgID user.teams).2 = [] :=
        List.isEmpty_iff.mp hemp
      refine ⟨(teamCacheScan cache user.orgID user.teams).1, cache, [],
        by simp [hemp], ?_, hcons⟩
      rw [h0] at hscan
      simpa [concatMap] using hscan
    | false =>
      rcases hfetch (teamCacheScan cache user.orgID user.teams).2 with ⟨hcall, hmult, hwcons⟩
      refine ⟨(teamCacheScan cache user.orgID user.teams).1 ++
        concatMap Prod.snd ((teamCacheScan cache user.orgID user.teams).2.filterMap
          (fun teamID =>
            let ps := m.teamPerms user.orgID teamID
            if ps.isEmpty then none else some (teamID, ps))),
        writeTeams user.orgID cache
          ((teamCacheScan cache user.orgID user.teams).2.filterMap (fun teamID =>
            let ps := m.teamPerms user.orgID teamID
            if ps.isEmpty then none else some (teamID, ps))),
        [StoreCall.teamsPerms
          { orgID := user.orgID, userID := 0, roles := [],
            teamIDs := (teamCacheScan cache user.orgID user.teams).2,
            rolePfxs := OSSRolesPrefixes }], ?_, ?_, hwcons⟩
      · simp only [hemp, Bool.false_eq_true, if_false, hcall]
      · rw [← Multiset.coe_add, hmult]
        exact hscan

/-- Over the model store, the direct producer yields the expected
value. -/
lemma getUserDirectPermissions_model (m : StoreModel) (s : Service) (hs : s.store = m.toStore)
    (user : Requester) (uid : Int)
    (hid : UserIdentifier user.nameSpace user.identifier = Except.ok uid) :
    s.getUserDirectPermissions user =
      (Except.ok (expectedDirect s m user.nameSpace user.identifier user.orgID),
        [StoreCall.userPerms
          { orgID := user.orgID, userID := uid, roles := [], teamIDs := [],
            rolePfxs := OSSRolesPrefixes }]) := by
  simp [Service.getUserDirectPermissions, hid, hs, StoreModel.toStore, expectedDirect,
    concatMap]

/-- Over the model store, the uncached path yields the RAM basic-role
permissions, the optional shared-with-me permission, and the combined
store response. -/
lemma getUserPermissions_model (m : StoreModel) (s : Service) (hs : s.store = m.toStore)
    (user : Requester) (options : Options) (uid : Int)
    (hid : UserIdentifier user.nameSpace user.identifier = Except.ok uid) :
    s.getUserPermissions user options =
      (Except.ok ((if s.features.nestedFolders then
          concatMap (ramRolePermissions s) user.orgRoles ++ [SharedWithMeFolderPermission]
        else concatMap (ramRolePermissions s) user.orgRoles) ++
        (m.directPerms user.orgID uid ++
          concatMap (m.basicRoleManaged user.orgID) user.orgRoles ++
          concatMap (m.teamPerms user.orgID) user.teams)),
        [StoreCall.userPerms
          { orgID := user.orgID, userID := uid, roles := user.orgRoles,
            teamIDs := user.teams, rolePfxs := OSSRolesPrefixes }]) := by
  by_cases hn : s.features.nestedFolders <;>
    simp [Service.getUserPermissions, hid, hs, StoreModel.toStore, hn]

/-- C1: over the decomposed store model, with a consistent (possibly
empty) cache and a principal whose id resolves, the uncached path and the
cached resolution path both succeed and return the same permission
multiset; with the permission cache enabled and a unique id,
GetUserPermissions takes exactly the cached path. -/
theorem C1_cached_equals_uncached (m : StoreModel) (s : Service) (cache : Cache)
    (user : Requester) (options : Options) (uid : Int)
    (hs : s.store = m.toStore)
    (hcons : ModelConsistent s m cache)
    (hid : UserIdentifier user.nameSpace user.identifier = Except.ok uid) :
    ∃ ps calls ps2 c2 calls2,
      s.getUserPermissions user options = (Except.ok ps, calls) ∧
      s.getCachedUserPermissions cache user options = (Except.ok ps2, c2, calls2) ∧
      (s.cfg.rbacPermissionCache = true → user.hasUniqueId = true →
        s.GetUserPermissions cache user options = (Except.ok ps2, c2, calls2)) ∧
      (↑ps : Multiset Permission) = (↑ps2 : Multiset Permission) := by
  rcases cachedBasicRolesLoop_model m s hs user.orgID options user.orgRoles cache hcons with
    ⟨c1, calls1, hloop, hc1⟩
  rcases getCachedTeamsPermissions_model m s hs c1 user options hc1 with
    ⟨tps, c2x, calls2x, hteams, htmult, hc2⟩
  have hdirprod := getUserDirectPermissions_model m s hs user uid hid
  have hdir := getCachedPermissions_ok s c2x
    (CacheKey.userDirect user.nameSpace user.identifier user.orgID)
    (fun _ => s.getUserDirectPermissions user) options
    (expectedDirect s m user.nameSpace user.identifier user.orgID) _ hdirprod
    (fun w hw => hc2.2.2 user.nameSpace user.identifier user.orgID w hw)
  rcases h3 : s.getCachedPermissions c2x
      (CacheKey.userDirect user.nameSpace user.identifier user.orgID)
      (fun _ => s.getUserDirectPermissions user) options with ⟨res3, c3, t3⟩
  rw [h3] at hdir
  have hres3 : res3 =
      Except.ok (expectedDirect s m user.nameSpace user.identifier user.orgID) := hdir.1
  have hcached : s.getCachedUserPermissions cache user options =
      (Except.ok (concatMap (fun r => expectedBasicRole s m r user.orgID) user.orgRoles ++
        tps ++ expectedDirect s m user.nameSpace user.identifier user.orgID),
        c3, calls1 ++ calls2x ++ t3) := by
    simp only [Service.getCachedUserPermissions, Service.getCachedBasicRolesPermissions,
      hloop, hteams, Service.getCachedUserDirectPermissions, h3, hres3]
  have huncached := getUserPermissions_model m s hs user options uid hid
  refine ⟨_, _, _, _, _, huncached, hcached, ?_, ?_⟩
  · intro hcfg huniq
    simp [Service.GetUserPermissions, hcfg, huniq, hcached]
  · have hED : expectedDirect s m user.nameSpace user.identifier user.orgID =
        (if s.features.nestedFolders then
          m.directPerms user.orgID uid ++ [SharedWithMeFolderPermission]
        else m.directPerms user.orgID uid) := by
      simp [expectedDirect, hid]
    have hcm : (↑(concatMap (fun r => expectedBasicRole s m r user.orgID) user.orgRoles) :
        Multiset Permission) =
        ↑(concatMap (ramRolePermissions s) user.orgRoles) +
        ↑(concatMap (fun r => m.basicRoleManaged user.orgID r) user.orgRoles) := by
      rw [show (fun r => expectedBasicRole s m r user.orgID) =
        (fun r => ramRolePermissions s r ++ m.basicRoleManaged user.orgID r) from rfl]
      exact concatMap_append_multiset (ramRolePermissions s)
        (fun r => m.basicRoleManaged user.orgID r) user.orgRoles
    rw [hED]
    by_cases hn : s.features.nestedFolders <;>
      · simp only [hn, if_true, Bool.false_eq_true, if_false]
        simp only [← Multiset.coe_add]
        rw [hcm, htmult]
        have hone : (↑(concatMap (fun r => m.basicRoleManaged user.orgID r) user.orgRoles) :
            Multiset Permission) =
            ↑(concatMap (m.basicRoleManaged user.orgID) user.orgRoles) := rfl
        rw [hone]
        abel

/-- The empty cache is consistent with any model. -/
lemma ModelConsistent_nil (s : Service) (m : StoreModel) : ModelConsistent s m ([] : Cache) := by
  refine ⟨?_, ?_, ?_⟩
  · intro r o v hv
    simp [cacheGet, cacheEntry] at hv
  · intro t o v hv
    simp [cacheGet, cacheEntry] at hv
  · intro ns i o v hv
    simp [cacheGet, cacheEntry] at hv

/-- C1 witness: on the sample model, service and principal with an empty
cache, both paths succeed with the same permission multiset, and
GetUserPermissions takes the cached path. -/
theorem C1_cached_equals_uncached_witness :
    ∃ ps calls ps2 c2 calls2,
      sampleService.getUserPermissions sampleUser { reloadCache := false } =
        (Except.ok ps, calls) ∧
      sampleService.getCachedUserPermissions [] sampleUser { reloadCache := false } =
        (Except.ok ps2, c2, calls2) ∧
      (sampleService.cfg.rbacPermissionCache = true → sampleUser.hasUniqueId = true →
        sampleService.GetUserPermissions [] sampleUser { reloadCache := false } =
          (Except.ok ps2, c2, calls2)) ∧
      (↑ps : Multiset Permission) = (↑ps2 : Multiset Permission) :=
  C1_cached_equals_uncached sampleModel sampleService [] sampleUser { reloadCache := false }
    42 rfl (ModelConsistent_nil sampleService sampleModel) rfl

end Grafana

